import Mathlib

/-!
Verification development for the seointel report-generation engine.

Shallow embedding of the core of the repository:
  * `lib/credits.ts`   — credit cost table, `calculateCredits`, `countRecords`
  * `lib/seranking.ts` — `RateLimiter` and the three multi-competitor
    aggregators (`getMultiCompetitorKeywordGaps`,
    `getMultiCompetitorKeywordOverlaps`, `getMultiCompetitorBacklinkGaps`)
  * `lib/report-generator.ts` — the AI-prompt deduplication fold of
    `generateReport`, and the backlinks/keywords/position-distribution
    sections of `compileReport`
  * `app/api/reports/route.ts` — the terminal run status.

Conventions used throughout the embedding:
  * JS numbers carried by the data model are embedded as `Int`
    (all quantities handled by the embedded code paths are integral);
    `Math.round(a / b)` on a quotient of integers with positive
    denominator is embedded as `jsRound` below.
  * A JS `Map` built by insertion is embedded as an association list:
    `Map.get` is `mapGet`, `Map.set` is `mapSet` (update in place,
    append on a fresh key), and `Map.values()` is the list of second
    components — this reproduces the insertion-order iteration of JS maps.
  * `Array.prototype.sort` (stable in JS) is embedded as
    `List.insertionSort`, which is a stable sort.
  * `String.prototype.toLowerCase()` is embedded as a character-wise
    `Char.toLower` over the string's character list.
  * A promise that either resolves or rejects is embedded as
    `Except Unit α`; `.catch(() => d)` is `catchDefault`, `.catch(() => null)`
    is `catchNull`.
-/

/-- Embedding of `Math.round (num / den)` for integer `num`, `den` with
`den > 0`: JS rounds half away from zero upward, i.e. `⌊x + 1/2⌋`, and
`⌊num/den + 1/2⌋ = (2*num + den).fdiv (2*den)`. -/
def jsRound (num den : Int) : Int :=
  Int.fdiv (2 * num + den) (2 * den)

/-- Embedding of `String.prototype.includes` (substring test): `needle`
occurs contiguously inside `hay`. -/
def isInfixList (needle hay : List Char) : Bool :=
  match hay with
  | [] => needle.isEmpty
  | _ :: t => needle.isPrefixOf hay || isInfixList needle t

/-- `endpoint.includes(pattern)` from `calculateCredits`. -/
def jsIncludes (hay pat : String) : Bool :=
  isInfixList pat.toList hay.toList

/-- Maximum of a list of integers folded from the first element, mirroring
repeated `Math.max(existing, incoming)` over the contributions in order.
Never applied to `[]` by the embedded code. -/
def maxList : List Int → Int
  | [] => 0
  | x :: xs => xs.foldl max x

/-- Embedding of `Math.min(...xs)` on a nonempty list (the aggregators only
apply it to the nonempty per-keyword competitor lists). -/
def jsMin : List Int → Int
  | [] => 0
  | x :: xs => xs.foldl min x

/-- `Map.get k` on an insertion-ordered association list. -/
def mapGet {α : Type} (m : List (String × α)) (k : String) : Option α :=
  match m with
  | [] => none
  | (k', v) :: rest => if k' = k then some v else mapGet rest k

/-- `Map.set k v` on an insertion-ordered association list: replaces the
binding in place if the key is present, appends otherwise. -/
def mapSet {α : Type} (m : List (String × α)) (k : String) (v : α) :
    List (String × α) :=
  match m with
  | [] => [(k, v)]
  | (k', v') :: rest =>
      if k' = k then (k, v) :: rest else (k', v') :: mapSet rest k v

/-- `promise.catch(() => d)`. -/
def catchDefault {α : Type} (x : Except Unit α) (d : α) : α :=
  match x with
  | .ok a => a
  | .error _ => d

/-- `promise.catch(() => null)`. -/
def catchNull {α : Type} (x : Except Unit α) : Option α :=
  match x with
  | .ok a => some a
  | .error _ => none

/-- `s.toLowerCase()` as a character list (see file header). -/
def lowerStr (s : String) : List Char :=
  s.toList.map Char.toLower

-- ============================================================
-- lib/credits.ts
-- ============================================================

/-- The static `CREDIT_COSTS` table from `lib/credits.ts`, in source order;
each entry is (pattern, (perRequest, perRecord)). -/
def CREDIT_COSTS : List (String × (Int × Int)) :=
  [ ("/backlinks/summary", (0, 100)),
    ("/backlinks/all", (0, 1)),
    ("/backlinks/anchors", (0, 1)),
    ("/backlinks/count", (0, 10)),
    ("/backlinks/authority", (0, 100)),
    ("/backlinks/authority/page", (0, 10)),
    ("/backlinks/authority/domain", (0, 10)),
    ("/backlinks/authority/domain/distribution", (0, 1)),
    ("/backlinks/referring-ips", (0, 1)),
    ("/backlinks/referring-ips/count", (0, 10)),
    ("/backlinks/metrics", (0, 100)),
    ("/backlinks/history", (0, 1)),
    ("/backlinks/history/count", (0, 100)),
    ("/backlinks/history/cumulative", (0, 100)),
    ("/backlinks/refdomains/history", (0, 1)),
    ("/backlinks/refdomains/history/count", (0, 100)),
    ("/backlinks/indexed-pages", (0, 1)),
    ("/backlinks/raw", (0, 1)),
    ("/backlinks/refdomains", (0, 1)),
    ("/backlinks/refdomains/count", (0, 10)),
    ("/backlinks/referring-subnets/count", (0, 10)),
    ("/backlinks/ips", (0, 1)),
    ("/domain/overview/db", (100, 0)),
    ("/domain/overview/worldwide", (100, 0)),
    ("/domain/overview/worldwide/url", (100, 0)),
    ("/domain/overview/history", (100, 0)),
    ("/domain/keywords", (100, 0)),
    ("/domain/pages", (100, 0)),
    ("/domain/subdomains", (100, 0)),
    ("/domain/ads", (100, 0)),
    ("/domain/competitors", (100, 0)),
    ("/domain/keywords/comparison", (100, 0)),
    ("/ai-search/overview", (1800, 0)),
    ("/ai-search/overview/leaderboard", (7500, 0)),
    ("/ai-search/discover-brand", (100, 0)),
    ("/ai-search/prompts-by-target", (0, 200)),
    ("/ai-search/prompts-by-brand", (0, 200)),
    ("/keywords/export", (0, 10)),
    ("/keywords/related", (0, 10)),
    ("/keywords/similar", (0, 10)),
    ("/keywords/questions", (0, 10)),
    ("/keywords/long-tail", (0, 1)),
    ("/account/subscription", (0, 0)) ]

/-- Descending-length order used by `matches.sort((a, b) => b.length - a.length)`. -/
def lenDescRel (a b : String) : Prop := b.length ≤ a.length

instance : DecidableRel lenDescRel := fun a b => by
  unfold lenDescRel; infer_instance

instance : IsTotal String lenDescRel :=
  ⟨fun a b => le_total b.length a.length⟩

instance : IsTrans String lenDescRel :=
  ⟨fun _ _ _ h1 h2 => le_trans h2 h1⟩

/-- The `Object.keys(CREDIT_COSTS).filter(...)` step of `calculateCredits`. -/
def creditMatches (endpoint : String) : List String :=
  (CREDIT_COSTS.map (·.1)).filter (fun pattern => jsIncludes endpoint pattern)

/-- The selected pattern `matches[0]` of `calculateCredits` (longest match,
ties broken by table order, as produced by JS's stable sort). -/
def creditMatch (endpoint : String) : Option String :=
  ((creditMatches endpoint).insertionSort lenDescRel).head?

/-- `CREDIT_COSTS[match]` lookup. -/
def creditCostOf (pattern : String) : Option (Int × Int) :=
  mapGet CREDIT_COSTS pattern

/-- `calculateCredits(endpoint, recordCount)` from `lib/credits.ts`. -/
def calculateCredits (endpoint : String) (recordCount : Int) : Int :=
  match creditMatch endpoint with
  | none => 0
  | some m =>
      match creditCostOf m with
      | none => 0
      | some costs => costs.1 + costs.2 * recordCount

/-- Embedding of the JSON payloads consumed by `countRecords`: an array, an
object (unique keys, modelled as an association list) or any other value. -/
inductive JsonValue : Type where
  | arr (elems : List JsonValue)
  | obj (fields : List (String × JsonValue))
  | other

/-- `obj[key]` property access on an embedded JSON object. -/
def jsGetField (fields : List (String × JsonValue)) (k : String) :
    Option JsonValue :=
  (fields.find? (fun f => f.1 = k)).map (·.2)

/-- The fixed list of wrapper property names probed by `countRecords`. -/
def wrapperKeys : List String :=
  ["data", "pages", "keywords", "backlinks", "refdomains", "prompts",
   "summary", "leaderboard", "history", "ips", "histogram"]

/-- `countRecords(response)` from `lib/credits.ts`. -/
def countRecords (response : JsonValue) : Nat :=
  match response with
  | .arr elems => elems.length
  | .obj fields =>
      match wrapperKeys.findSome? (fun k =>
          match jsGetField fields k with
          | some (.arr elems) => some elems.length
          | _ => none) with
      | some n => n
      | none => 1
  | .other => 1

/-- The probe `countRecords` applies to each wrapper key. -/
def wrapperProbe (fields : List (String × JsonValue)) (k : String) :
    Option Nat :=
  match jsGetField fields k with
  | some (.arr elems) => some elems.length
  | _ => none

-- ============================================================
-- lib/seranking.ts : RateLimiter
-- ============================================================

/-- State of the token-bucket `RateLimiter` of `lib/seranking.ts`.
`tokens` is a JS number that becomes fractional through refill, embedded
as a rational. -/
structure RateLimiter : Type where
  tokens : ℚ
  maxTokens : ℚ
  refillRate : ℚ
  lastRefill : ℚ

namespace RateLimiter

/-- `new RateLimiter(requestsPerSecond)`: full bucket, per-ms refill rate. -/
def init (requestsPerSecond : ℚ) (now : ℚ) : RateLimiter :=
  { tokens := requestsPerSecond
    maxTokens := requestsPerSecond
    refillRate := requestsPerSecond / 1000
    lastRefill := now }

/-- `refill()`: lazy refill from elapsed wall-clock time, capped at capacity. -/
def refill (s : RateLimiter) (now : ℚ) : RateLimiter :=
  { s with
    tokens := min s.maxTokens (s.tokens + (now - s.lastRefill) * s.refillRate)
    lastRefill := now }

/-- `acquire()`. `now` is the clock at entry; `now'` is the clock after the
computed wait in the starved branch. Returns the post-state and whether the
caller was made to wait. -/
def acquire (s : RateLimiter) (now now' : ℚ) : RateLimiter × Bool :=
  let s1 := refill s now
  if 1 ≤ s1.tokens then
    ({ s1 with tokens := s1.tokens - 1 }, false)
  else
    ({ s1 with tokens := 0, lastRefill := now' }, true)

end RateLimiter

-- ============================================================
-- lib/seranking.ts : multi-competitor aggregators
-- ============================================================

/-- One row of `getDomainKeywordsComparison(...).data` (a `KeywordGap`
record): the input rows of `getMultiCompetitorKeywordGaps`. -/
structure KeywordGapRow : Type where
  keyword : String
  volume : Int
  difficulty : Int
  competitor_position : Int
  our_position : Option Int

/-- The per-keyword accumulator of the `keywordMap` in
`getMultiCompetitorKeywordGaps`. -/
structure GapAcc : Type where
  keyword : String
  volume : Int
  difficulty : Int
  competitors : List (String × Int)

/-- An `AggregatedKeywordGap` (lib/types.ts). -/
structure AggregatedKeywordGap : Type where
  keyword : String
  volume : Int
  difficulty : Int
  competitorCount : Nat
  competitors : List (String × Int)
  avgPosition : Int
  bestPosition : Int

/-- The duplicate/new-key fold body of `getMultiCompetitorKeywordGaps`. -/
def gapStep (m : List (String × GapAcc)) (competitor : String)
    (gap : KeywordGapRow) : List (String × GapAcc) :=
  match mapGet m gap.keyword with
  | some existing =>
      mapSet m gap.keyword
        { existing with
          competitors :=
            existing.competitors ++ [(competitor, gap.competitor_position)]
          volume := max existing.volume gap.volume
          difficulty := max existing.difficulty gap.difficulty }
  | none =>
      mapSet m gap.keyword
        { keyword := gap.keyword
          volume := gap.volume
          difficulty := gap.difficulty
          competitors := [(competitor, gap.competitor_position)] }

/-- The nested `for (const { competitor, gaps } of gapResults) for (const gap
of gaps)` loops building `keywordMap`. -/
def gapFold (gapResults : List (String × List KeywordGapRow)) :
    List (String × GapAcc) :=
  gapResults.foldl
    (fun m cr => cr.2.foldl (fun m' g => gapStep m' cr.1 g) m) []

/-- The `.map(item => ...)` step computing the aggregated metrics. -/
def finalizeGap (item : GapAcc) : AggregatedKeywordGap :=
  { keyword := item.keyword
    volume := item.volume
    difficulty := item.difficulty
    competitorCount := item.competitors.length
    competitors := item.competitors
    avgPosition :=
      jsRound ((item.competitors.map (·.2)).sum) (item.competitors.length : Int)
    bestPosition := jsMin (item.competitors.map (·.2)) }

/-- The comparator `(a, b) => b.competitorCount - a.competitorCount ||
b.volume - a.volume` of the gap aggregator, as the order it sorts into. -/
def gapRel (a b : AggregatedKeywordGap) : Prop :=
  b.competitorCount < a.competitorCount ∨
    (a.competitorCount = b.competitorCount ∧ b.volume ≤ a.volume)

instance : DecidableRel gapRel := fun a b => by
  unfold gapRel; infer_instance

instance : IsTotal AggregatedKeywordGap gapRel := by
  constructor
  intro a b
  unfold gapRel
  rcases Nat.lt_trichotomy a.competitorCount b.competitorCount with h | h | h
  · exact Or.inr (Or.inl h)
  · rcases le_total a.volume b.volume with hv | hv
    · exact Or.inr (Or.inr ⟨h.symm, hv⟩)
    · exact Or.inl (Or.inr ⟨h, hv⟩)
  · exact Or.inl (Or.inl h)

instance : IsTrans AggregatedKeywordGap gapRel := by
  constructor
  intro a b c hab hbc
  unfold gapRel at *
  rcases hab with h1 | ⟨h1, h1'⟩ <;> rcases hbc with h2 | ⟨h2, h2'⟩
  · exact Or.inl (h2.trans h1)
  · exact Or.inl (by omega)
  · exact Or.inl (by omega)
  · exact Or.inr ⟨by omega, h2'.trans h1'⟩

/-- `getMultiCompetitorKeywordGaps` before the final `.slice(0, limit)`:
`Array.from(keywordMap.values()).map(finalize).sort(cmp)`. -/
def gapAggregateAll (gapResults : List (String × List KeywordGapRow)) :
    List AggregatedKeywordGap :=
  (((gapFold gapResults).map (·.2)).map finalizeGap).insertionSort gapRel

/-- The pure aggregation core of `getMultiCompetitorKeywordGaps`
(`lib/seranking.ts`), taking the per-competitor fetched gap lists. -/
def getMultiCompetitorKeywordGaps
    (gapResults : List (String × List KeywordGapRow)) (limit : Nat) :
    List AggregatedKeywordGap :=
  (gapAggregateAll gapResults).take limit

/-- The flattened iteration order of the nested gap loops, with the
contributing competitor attached to each row. -/
def gapPairs (gapResults : List (String × List KeywordGapRow)) :
    List (String × KeywordGapRow) :=
  gapResults.flatMap (fun cr => cr.2.map (fun g => (cr.1, g)))

/-- The contributions of keyword `k`: the rows for `k` in iteration order,
each tagged with the competitor that contributed it. -/
def gapContribs (gapResults : List (String × List KeywordGapRow))
    (k : String) : List (String × KeywordGapRow) :=
  (gapPairs gapResults).filter (fun cg => cg.2.keyword = k)

/-- One row of `getKeywordOverlap(...).data`: the input rows of
`getMultiCompetitorKeywordOverlaps`. -/
structure OverlapRow : Type where
  keyword : String
  volume : Int
  ourPosition : Int
  competitorPosition : Int

/-- The per-keyword accumulator of the `keywordMap` in
`getMultiCompetitorKeywordOverlaps`. -/
structure OverlapAcc : Type where
  keyword : String
  volume : Int
  ourPosition : Int
  competitors : List (String × Int)

/-- An `AggregatedKeywordOverlap` (lib/types.ts). -/
structure AggregatedKeywordOverlap : Type where
  keyword : String
  volume : Int
  ourPosition : Int
  competitorCount : Nat
  competitors : List (String × Int)
  avgCompetitorPosition : Int
  positionGap : Int

/-- The loop body of `getMultiCompetitorKeywordOverlaps`: only rows with
`competitorPosition < ourPosition` are admitted; rows failing the filter
leave the map untouched. -/
def overlapStep (m : List (String × OverlapAcc)) (competitor : String)
    (row : OverlapRow) : List (String × OverlapAcc) :=
  if row.competitorPosition < row.ourPosition then
    match mapGet m row.keyword with
    | some existing =>
        mapSet m row.keyword
          { existing with
            competitors :=
              existing.competitors ++ [(competitor, row.competitorPosition)]
            volume := max existing.volume row.volume }
    | none =>
        mapSet m row.keyword
          { keyword := row.keyword
            volume := row.volume
            ourPosition := row.ourPosition
            competitors := [(competitor, row.competitorPosition)] }
  else m

/-- The nested loops building the overlap `keywordMap`. -/
def overlapFold (overlapResults : List (String × List OverlapRow)) :
    List (String × OverlapAcc) :=
  overlapResults.foldl
    (fun m cr => cr.2.foldl (fun m' r => overlapStep m' cr.1 r) m) []

/-- The `.map(item => ...)` step computing the overlap metrics. -/
def finalizeOverlap (item : OverlapAcc) : AggregatedKeywordOverlap :=
  let avgCompetitorPosition :=
    jsRound ((item.competitors.map (·.2)).sum) (item.competitors.length : Int)
  { keyword := item.keyword
    volume := item.volume
    ourPosition := item.ourPosition
    competitorCount := item.competitors.length
    competitors := item.competitors
    avgCompetitorPosition := avgCompetitorPosition
    positionGap := item.ourPosition - avgCompetitorPosition }

/-- The sort comparator of the overlap aggregator (same shape as the gap
comparator: competitorCount descending, then volume descending). -/
def overlapRel (a b : AggregatedKeywordOverlap) : Prop :=
  b.competitorCount < a.competitorCount ∨
    (a.competitorCount = b.competitorCount ∧ b.volume ≤ a.volume)

instance : DecidableRel overlapRel := fun a b => by
  unfold overlapRel; infer_instance

instance : IsTotal AggregatedKeywordOverlap overlapRel := by
  constructor
  intro a b
  unfold overlapRel
  rcases Nat.lt_trichotomy a.competitorCount b.competitorCount with h | h | h
  · exact Or.inr (Or.inl h)
  · rcases le_total a.volume b.volume with hv | hv
    · exact Or.inr (Or.inr ⟨h.symm, hv⟩)
    · exact Or.inl (Or.inr ⟨h, hv⟩)
  · exact Or.inl (Or.inl h)

instance : IsTrans AggregatedKeywordOverlap overlapRel := by
  constructor
  intro a b c hab hbc
  unfold overlapRel at *
  rcases hab with h1 | ⟨h1, h1'⟩ <;> rcases hbc with h2 | ⟨h2, h2'⟩
  · exact Or.inl (h2.trans h1)
  · exact Or.inl (by omega)
  · exact Or.inl (by omega)
  · exact Or.inr ⟨by omega, h2'.trans h1'⟩

/-- `getMultiCompetitorKeywordOverlaps` before the final `.slice(0, limit)`. -/
def overlapAggregateAll (overlapResults : List (String × List OverlapRow)) :
    List AggregatedKeywordOverlap :=
  (((overlapFold overlapResults).map (·.2)).map finalizeOverlap).insertionSort
    overlapRel

/-- The pure aggregation core of `getMultiCompetitorKeywordOverlaps`
(`lib/seranking.ts`). -/
def getMultiCompetitorKeywordOverlaps
    (overlapResults : List (String × List OverlapRow)) (limit : Nat) :
    List AggregatedKeywordOverlap :=
  (overlapAggregateAll overlapResults).take limit

/-- The flattened iteration order of the overlap loops. -/
def overlapPairs (overlapResults : List (String × List OverlapRow)) :
    List (String × OverlapRow) :=
  overlapResults.flatMap (fun cr => cr.2.map (fun r => (cr.1, r)))

/-- The admitted contributions of keyword `k`: rows for `k` that pass the
`competitorPosition < ourPosition` filter, in iteration order. -/
def overlapContribs (overlapResults : List (String × List OverlapRow))
    (k : String) : List (String × OverlapRow) :=
  (overlapPairs overlapResults).filter
    (fun cg => cg.2.keyword = k ∧ cg.2.competitorPosition < cg.2.ourPosition)

/-- One row of `getBacklinksRefDomains(...).data` (a `RefDomain` record):
the input rows of `getMultiCompetitorBacklinkGaps`. -/
structure RefDomainRow : Type where
  domain : String
  backlinks : Int
  domain_inlink_rank : Int
  first_seen : String

/-- The per-domain accumulator of the `domainMap` in
`getMultiCompetitorBacklinkGaps`. -/
structure BacklinkAcc : Type where
  domain : String
  domainInlinkRank : Int
  competitors : List (String × Int)
  totalBacklinks : Int

/-- An `AggregatedBacklinkGap` (lib/types.ts). -/
structure AggregatedBacklinkGap : Type where
  domain : String
  domainInlinkRank : Int
  competitorCount : Nat
  totalBacklinksToCompetitors : Int
  competitors : List (String × Int)

/-- The loop body of `getMultiCompetitorBacklinkGaps`: rows whose domain is
in our own referring-domain set are skipped (`continue`). -/
def backlinkStep (ourDomainSet : List String)
    (m : List (String × BacklinkAcc)) (competitor : String)
    (ref : RefDomainRow) : List (String × BacklinkAcc) :=
  if ref.domain ∈ ourDomainSet then m
  else
    match mapGet m ref.domain with
    | some existing =>
        mapSet m ref.domain
          { existing with
            competitors := existing.competitors ++ [(competitor, ref.backlinks)]
            totalBacklinks := existing.totalBacklinks + ref.backlinks
            domainInlinkRank :=
              max existing.domainInlinkRank ref.domain_inlink_rank }
    | none =>
        mapSet m ref.domain
          { domain := ref.domain
            domainInlinkRank := ref.domain_inlink_rank
            competitors := [(competitor, ref.backlinks)]
            totalBacklinks := ref.backlinks }

/-- The nested loops building the backlink-gap `domainMap`. -/
def backlinkFold (ourDomainSet : List String)
    (refDomainResults : List (String × List RefDomainRow)) :
    List (String × BacklinkAcc) :=
  refDomainResults.foldl
    (fun m cr => cr.2.foldl (fun m' r => backlinkStep ourDomainSet m' cr.1 r) m)
    []

/-- The `.map(item => ...)` step of the backlink-gap aggregator. -/
def finalizeBacklink (item : BacklinkAcc) : AggregatedBacklinkGap :=
  { domain := item.domain
    domainInlinkRank := item.domainInlinkRank
    competitorCount := item.competitors.length
    totalBacklinksToCompetitors := item.totalBacklinks
    competitors := item.competitors }

/-- The sort comparator of the backlink-gap aggregator: competitorCount
descending, then domainInlinkRank descending. -/
def backlinkRel (a b : AggregatedBacklinkGap) : Prop :=
  b.competitorCount < a.competitorCount ∨
    (a.competitorCount = b.competitorCount ∧
      b.domainInlinkRank ≤ a.domainInlinkRank)

instance : DecidableRel backlinkRel := fun a b => by
  unfold backlinkRel; infer_instance

instance : IsTotal AggregatedBacklinkGap backlinkRel := by
  constructor
  intro a b
  unfold backlinkRel
  rcases Nat.lt_trichotomy a.competitorCount b.competitorCount with h | h | h
  · exact Or.inr (Or.inl h)
  · rcases le_total a.domainInlinkRank b.domainInlinkRank with hv | hv
    · exact Or.inr (Or.inr ⟨h.symm, hv⟩)
    · exact Or.inl (Or.inr ⟨h, hv⟩)
  · exact Or.inl (Or.inl h)

instance : IsTrans AggregatedBacklinkGap backlinkRel := by
  constructor
  intro a b c hab hbc
  unfold backlinkRel at *
  rcases hab with h1 | ⟨h1, h1'⟩ <;> rcases hbc with h2 | ⟨h2, h2'⟩
  · exact Or.inl (h2.trans h1)
  · exact Or.inl (by omega)
  · exact Or.inl (by omega)
  · exact Or.inr ⟨by omega, h2'.trans h1'⟩

/-- `getMultiCompetitorBacklinkGaps` before the final `.slice(0, limit)`. -/
def backlinkAggregateAll (ourDomainSet : List String)
    (refDomainResults : List (String × List RefDomainRow)) :
    List AggregatedBacklinkGap :=
  (((backlinkFold ourDomainSet refDomainResults).map (·.2)).map
    finalizeBacklink).insertionSort backlinkRel

/-- The pure aggregation core of `getMultiCompetitorBacklinkGaps`
(`lib/seranking.ts`): `ourDomainSet` is the set of domains already
referring to us, computed before the fold. -/
def getMultiCompetitorBacklinkGaps (ourDomainSet : List String)
    (refDomainResults : List (String × List RefDomainRow)) (limit : Nat) :
    List AggregatedBacklinkGap :=
  (backlinkAggregateAll ourDomainSet refDomainResults).take limit

/-- The flattened iteration order of the backlink-gap loops. -/
def backlinkPairs (refDomainResults : List (String × List RefDomainRow)) :
    List (String × RefDomainRow) :=
  refDomainResults.flatMap (fun cr => cr.2.map (fun r => (cr.1, r)))

/-- The contributions of referring domain `d`: its rows in iteration order
(the own-domain filter never drops rows of a domain outside the own set). -/
def backlinkContribs (refDomainResults : List (String × List RefDomainRow))
    (d : String) : List (String × RefDomainRow) :=
  (backlinkPairs refDomainResults).filter (fun cg => cg.2.domain = d)

-- ============================================================
-- lib/report-generator.ts : AI prompt deduplication
-- ============================================================

/-- The `type` field of an `AIPrompt` (lib/types.ts). -/
inductive PromptType : Type where
  | brand
  | link
  | brand_link
deriving DecidableEq

/-- An `AIPrompt` record (lib/types.ts). -/
structure AIPrompt : Type where
  prompt : String
  engine : String
  type : PromptType
  position : Int
  volume : Option Int
  answer_snippet : Option String
  answer_full : Option String
  sources : Option (List String)

/-- The duplicate-merge branch of the prompt fold in `generateReport`:
`existing` is the already-listed entry, `p` the incoming duplicate; the
classification is upgraded to `brand_link` exactly under the source's
`(existingIsBrand && newIsLink) || (existingIsLink && newIsBrand)` test, and
the listed entry is otherwise kept as is (`{ ...existing, type: 'brand_link' }`). -/
def mergePrompt (existing p : AIPrompt) : AIPrompt :=
  let existingIsBrand :=
    existing.type = PromptType.brand ∨ existing.type = PromptType.brand_link
  let newIsLink :=
    p.type = PromptType.link ∨ p.type = PromptType.brand_link
  let existingIsLink :=
    existing.type = PromptType.link ∨ existing.type = PromptType.brand_link
  let newIsBrand :=
    p.type = PromptType.brand ∨ p.type = PromptType.brand_link
  if (existingIsBrand ∧ newIsLink) ∨ (existingIsLink ∧ newIsBrand) then
    { existing with type := PromptType.brand_link }
  else
    existing

/-- One iteration of the dedup fold on a single engine list: the
`findIndex` over case-insensitively equal prompt texts, appending on a miss
and merging in place on a hit. -/
def insertPrompt (engineList : List AIPrompt) (p : AIPrompt) :
    List AIPrompt :=
  match engineList with
  | [] => [p]
  | e :: rest =>
      if lowerStr e.prompt = lowerStr p.prompt then mergePrompt e p :: rest
      else e :: insertPrompt rest p

/-- The `promptsByEngine` map, embedded pointwise as a function from engine
name to its ordered list (the engine-iteration order of the JS map is not
used by any property below). -/
def foldPrompts (promptsResults : List (List AIPrompt)) :
    String → List AIPrompt :=
  promptsResults.foldl
    (fun m ps =>
      ps.foldl
        (fun m' p => fun e =>
          if e = p.engine then insertPrompt (m' p.engine) p else m' e)
        m)
    (fun _ => [])

/-- The volume-descending sort relation `(a, b) => (b.volume || 0) - (a.volume || 0)`. -/
def volRel (a b : AIPrompt) : Prop :=
  b.volume.getD 0 ≤ a.volume.getD 0

instance : DecidableRel volRel := fun a b => by
  unfold volRel; infer_instance

instance : IsTotal AIPrompt volRel :=
  ⟨fun a b => le_total (b.volume.getD 0) (a.volume.getD 0)⟩

instance : IsTrans AIPrompt volRel :=
  ⟨fun _ _ _ h1 h2 => le_trans h2 h1⟩

/-- `const promptsPerEngine = 8`. -/
def promptsPerEngine : Nat := 8

/-- Engine `e`'s final prompt list: dedup fold, volume-descending sort, cap
at `promptsPerEngine`. -/
def enginePrompts (promptsResults : List (List AIPrompt)) (e : String) :
    List AIPrompt :=
  ((foldPrompts promptsResults e).insertionSort volRel).take promptsPerEngine

/-- The classification-upgrade test of the merge branch: one side is
`brand` or `brand_link` and the other is `link` or `brand_link`. -/
def upgradeCond (a b : PromptType) : Prop :=
  ((a = PromptType.brand ∨ a = PromptType.brand_link) ∧
    (b = PromptType.link ∨ b = PromptType.brand_link)) ∨
  ((a = PromptType.link ∨ a = PromptType.brand_link) ∧
    (b = PromptType.brand ∨ b = PromptType.brand_link))

instance : ∀ a b, Decidable (upgradeCond a b) := fun a b => by
  unfold upgradeCond; infer_instance

-- ============================================================
-- lib/report-generator.ts : compileReport slice, run status
-- ============================================================

/-- A `BacklinksSummary` record (lib/types.ts); the two `tlds`/`countries`
maps are embedded as association lists. -/
structure BacklinksSummary : Type where
  backlinks : Int
  backlinks_num : Int
  refdomains : Int
  refdomains_num : Int
  subnets : Int
  ips : Int
  dofollow_backlinks : Int
  nofollow_backlinks : Int
  text_backlinks : Int
  image_backlinks : Int
  redirect_backlinks : Int
  canonical_backlinks : Int
  gov_backlinks : Int
  edu_backlinks : Int
  tlds : List (String × Int)
  countries : List (String × Int)
  top_anchors_by_backlinks : List (String × Int)
  top_anchors_by_refdomains : List (String × Int)

/-- `createEmptyBacklinksSummary()` from `lib/report-generator.ts`. -/
def createEmptyBacklinksSummary : BacklinksSummary :=
  { backlinks := 0
    backlinks_num := 0
    refdomains := 0
    refdomains_num := 0
    subnets := 0
    ips := 0
    dofollow_backlinks := 0
    nofollow_backlinks := 0
    text_backlinks := 0
    image_backlinks := 0
    redirect_backlinks := 0
    canonical_backlinks := 0
    gov_backlinks := 0
    edu_backlinks := 0
    tlds := []
    countries := []
    top_anchors_by_backlinks := []
    top_anchors_by_refdomains := [] }

/-- The fields of a `DomainOverview` record used by `compileReport`
(lib/types.ts; all fields are plain numbers there). -/
structure DomainOverview : Type where
  traffic : Int
  keywords : Int
  keywords_top3 : Int
  keywords_top10 : Int
  keywords_top20 : Int
  keywords_top50 : Int
  keywords_top100 : Int

/-- The `organic` block of the raw `/domain/overview/db` response consumed
by `getDomainOverview` (lib/seranking.ts): the provider reports rank-band
counts `top1_5 … top51_100` and never a top-3 count. The `|| 0` guards of
the source are identities on the integer-embedded fields. -/
structure OrganicOverviewRaw : Type where
  traffic_sum : Int
  keywords_count : Int
  top1_5 : Int
  top6_10 : Int
  top11_20 : Int
  top21_50 : Int
  top51_100 : Int

/-- The normalization performed by `getDomainOverview` (lib/seranking.ts),
restricted to the fields the compiler reads: `keywords_top3` is the
client-side estimate `Math.round(top1_5 * 0.6)` — embedded exactly as the
half-up rounding of `3 * top1_5 / 5` — and the other buckets are
cumulative sums of the provider's rank-band counts. -/
def normalizeDomainOverview (organic : OrganicOverviewRaw) : DomainOverview :=
  let top10 := organic.top1_5 + organic.top6_10
  let top20 := top10 + organic.top11_20
  let top50 := top20 + organic.top21_50
  { traffic := organic.traffic_sum
    keywords := organic.keywords_count
    keywords_top3 := jsRound (3 * organic.top1_5) 5
    keywords_top10 := top10
    keywords_top20 := top20
    keywords_top50 := top50
    keywords_top100 := top10 + organic.top11_20 + organic.top21_50 +
      organic.top51_100 }

/-- A `DomainKeyword` record (lib/types.ts), restricted to the fields read
by the embedded compiler slice. -/
structure DomainKeyword : Type where
  keyword : String
  position : Int
  volume : Int

/-- The `positionDistribution` object computed by `compileReport`. -/
structure PositionDistribution : Type where
  top3 : Int
  top10 : Int
  top20 : Int
  top50 : Int
  top100 : Int

/-- The `positionDistribution` computation of `compileReport`
(lib/report-generator.ts): the domain overview's top-N figures when it is
available (the `|| 0` guards are identities on the integer-embedded
fields), otherwise bucket counts over the fetched keywords. -/
def compilePositionDistribution (domainOverview : Option DomainOverview)
    (allKeywords : List DomainKeyword) : PositionDistribution :=
  match domainOverview with
  | some o =>
      { top3 := o.keywords_top3
        top10 := o.keywords_top10
        top20 := o.keywords_top20
        top50 := o.keywords_top50
        top100 := o.keywords_top100 }
  | none =>
      { top3 := ((allKeywords.filter (fun k => k.position ≤ 3)).length : Int)
        top10 := ((allKeywords.filter (fun k => k.position ≤ 10)).length : Int)
        top20 := ((allKeywords.filter (fun k => k.position ≤ 20)).length : Int)
        top50 := ((allKeywords.filter (fun k => k.position ≤ 50)).length : Int)
        top100 :=
          ((allKeywords.filter (fun k => k.position ≤ 100)).length : Int) }

/-- The `backlinks` section of the compiled report, restricted to the
summary field the degradation claim is about. -/
structure BacklinksSection : Type where
  summary : BacklinksSummary

/-- The `keywords` section of the compiled report, restricted to the fields
populated from the keyword fetches. -/
structure KeywordsSection : Type where
  total : Int
  topKeywords : List DomainKeyword
  nearPageOne : List DomainKeyword
  positionDistribution : PositionDistribution

/-- The `totalKeywords: domainOverview?.keywords ||
allKeywordsResult.data.length` computation of `generateReport`
(lib/report-generator.ts line with the comment "Use total from
domainOverview since keywords API doesn't return count"): JS `||` falls
through to the fetched list's length when the overview is missing or its
`keywords` count is the falsy 0. -/
def totalKeywordsOf (domainOverview : Option DomainOverview)
    (allKeywords : List DomainKeyword) : Int :=
  match domainOverview with
  | some o =>
      if o.keywords = 0 then (allKeywords.length : Int) else o.keywords
  | none => (allKeywords.length : Int)

/-- The slice of the compiled report covered by the embedding. -/
structure ReportSlice : Type where
  backlinks : BacklinksSection
  keywords : KeywordsSection

/-- The corresponding slice of `compileReport` (lib/report-generator.ts):
`summary: backlinksSummary || createEmptyBacklinksSummary()`, and the
keywords section assembled from the keyword fetches. -/
def compileReportSlice (backlinksSummary : Option BacklinksSummary)
    (domainOverview : Option DomainOverview) (totalKeywords : Int)
    (allKeywords nearPageOneKeywords : List DomainKeyword) : ReportSlice :=
  { backlinks := { summary := backlinksSummary.getD createEmptyBacklinksSummary }
    keywords :=
      { total := totalKeywords
        topKeywords := allKeywords
        nearPageOne := nearPageOneKeywords
        positionDistribution :=
          compilePositionDistribution domainOverview allKeywords } }

/-- The phase-2 fetch outcomes of `generateReport` that feed the embedded
slice; each promise either resolves or rejects. In the source every one of
these fetches carries its own `.catch` handler. -/
structure FetchOutcomes : Type where
  backlinksSummary : Except Unit BacklinksSummary
  domainOverview : Except Unit DomainOverview
  allKeywords : Except Unit (List DomainKeyword × Int)
  nearPageOne : Except Unit (List DomainKeyword)

/-- The slice of `generateReport` (lib/report-generator.ts) deciding the
claims below: each fetch is individually defaulted exactly as in the source
(`getBacklinksSummary(...).catch(() => null)`, domain overview `null` on
failure, keyword fetches defaulted to empty data), `totalKeywords` is
derived via `totalKeywordsOf`, and the report is compiled; nothing in this
path can throw, so the result is always `ok`. -/
def generateReportSlice (f : FetchOutcomes) : Except String ReportSlice :=
  let backlinksSummary := catchNull f.backlinksSummary
  let domainOverview := catchNull f.domainOverview
  let allKeywordsResult := catchDefault f.allKeywords ([], 0)
  let nearPageOneResult := catchDefault f.nearPageOne []
  let totalKeywords := totalKeywordsOf domainOverview allKeywordsResult.1
  Except.ok
    (compileReportSlice backlinksSummary domainOverview
      totalKeywords allKeywordsResult.1 nearPageOneResult)

/-- `ReportStatus` (lib/types.ts). -/
inductive ReportStatus : Type where
  | pending
  | processing
  | completed
  | failed
deriving DecidableEq

/-- The terminal status assignment of `app/api/reports/route.ts`: the run is
marked `completed` when `generateReport` resolves and `failed` only when it
throws. -/
def runStatus (r : Except String ReportSlice) : ReportStatus :=
  match r with
  | .ok _ => ReportStatus.completed
  | .error _ => ReportStatus.failed

-- ============================================================
-- Characterization helpers used by the statements and proofs
-- ============================================================

deriving instance DecidableEq for KeywordGapRow
deriving instance DecidableEq for GapAcc
deriving instance DecidableEq for AggregatedKeywordGap
deriving instance DecidableEq for OverlapRow
deriving instance DecidableEq for OverlapAcc
deriving instance DecidableEq for AggregatedKeywordOverlap
deriving instance DecidableEq for RefDomainRow
deriving instance DecidableEq for BacklinkAcc
deriving instance DecidableEq for AggregatedBacklinkGap
deriving instance DecidableEq for AIPrompt
deriving instance DecidableEq for BacklinksSummary
deriving instance DecidableEq for DomainOverview
deriving instance DecidableEq for DomainKeyword
deriving instance DecidableEq for PositionDistribution
deriving instance DecidableEq for BacklinksSection
deriving instance DecidableEq for KeywordsSection
deriving instance DecidableEq for ReportSlice

/-- The effect of one gap contribution on the accumulator stored at its
keyword (the per-key view of `gapStep`). -/
def gapAccStep (k : String) (acc : Option GapAcc)
    (cg : String × KeywordGapRow) : Option GapAcc :=
  match acc with
  | none =>
      some { keyword := k
             volume := cg.2.volume
             difficulty := cg.2.difficulty
             competitors := [(cg.1, cg.2.competitor_position)] }
  | some e =>
      some { e with
             volume := max e.volume cg.2.volume
             difficulty := max e.difficulty cg.2.difficulty
             competitors := e.competitors ++ [(cg.1, cg.2.competitor_position)] }

/-- The accumulator that a list of contributions for keyword `k` produces:
maxima of the contributed volumes/difficulties, and one (domain, position)
pair per contribution in order. -/
def gapAccOf (k : String) (l : List (String × KeywordGapRow)) :
    Option GapAcc :=
  match l with
  | [] => none
  | _ :: _ =>
      some { keyword := k
             volume := maxList (l.map (·.2.volume))
             difficulty := maxList (l.map (·.2.difficulty))
             competitors := l.map (fun cg => (cg.1, cg.2.competitor_position)) }

/-- The per-key view of `overlapStep` on an already-admitted contribution. -/
def overlapAccStep (k : String) (acc : Option OverlapAcc)
    (cg : String × OverlapRow) : Option OverlapAcc :=
  match acc with
  | none =>
      some { keyword := k
             volume := cg.2.volume
             ourPosition := cg.2.ourPosition
             competitors := [(cg.1, cg.2.competitorPosition)] }
  | some e =>
      some { e with
             volume := max e.volume cg.2.volume
             competitors := e.competitors ++ [(cg.1, cg.2.competitorPosition)] }

/-- The accumulator produced by the admitted contributions of keyword `k`:
`ourPosition` comes from the first admitted row, volume is the maximum, and
there is one (domain, position) pair per admitted contribution in order. -/
def overlapAccOf (k : String) (l : List (String × OverlapRow)) :
    Option OverlapAcc :=
  match l with
  | [] => none
  | first :: _ =>
      some { keyword := k
             volume := maxList (l.map (·.2.volume))
             ourPosition := first.2.ourPosition
             competitors := l.map (fun cg => (cg.1, cg.2.competitorPosition)) }

/-- The per-key view of `backlinkStep` on a non-excluded contribution. -/
def backlinkAccStep (d : String) (acc : Option BacklinkAcc)
    (cg : String × RefDomainRow) : Option BacklinkAcc :=
  match acc with
  | none =>
      some { domain := d
             domainInlinkRank := cg.2.domain_inlink_rank
             competitors := [(cg.1, cg.2.backlinks)]
             totalBacklinks := cg.2.backlinks }
  | some e =>
      some { e with
             competitors := e.competitors ++ [(cg.1, cg.2.backlinks)]
             totalBacklinks := e.totalBacklinks + cg.2.backlinks
             domainInlinkRank :=
               max e.domainInlinkRank cg.2.domain_inlink_rank }

/-- The accumulator produced by the contributions of referring domain `d`:
maximum authority, summed backlinks, one pair per contribution in order. -/
def backlinkAccOf (d : String) (l : List (String × RefDomainRow)) :
    Option BacklinkAcc :=
  match l with
  | [] => none
  | _ :: _ =>
      some { domain := d
             domainInlinkRank := maxList (l.map (·.2.domain_inlink_rank))
             competitors := l.map (fun cg => (cg.1, cg.2.backlinks))
             totalBacklinks := (l.map (·.2.backlinks)).sum }

-- ============================================================
-- Concrete example inputs used by witnesses and counterexamples
-- ============================================================

/-- The worked keyword-gap example of the specification: competitors
`a.com` and `b.com` both rank for "buy shoes". -/
def gapExampleResults : List (String × List KeywordGapRow) :=
  [ ("a.com",
      [{ keyword := "buy shoes", volume := 1000, difficulty := 30,
         competitor_position := 5, our_position := none }]),
    ("b.com",
      [{ keyword := "buy shoes", volume := 1200, difficulty := 35,
         competitor_position := 2, our_position := none }]) ]

/-- The aggregated entry the example is expected to produce. -/
def gapExampleEntry : AggregatedKeywordGap :=
  { keyword := "buy shoes", volume := 1200, difficulty := 35,
    competitorCount := 2, competitors := [("a.com", 5), ("b.com", 2)],
    avgPosition := 4, bestPosition := 2 }

/-- Overlap input with a consistent `ourPosition` per keyword (the expected
shape), used to witness the amended overlap claim. -/
def overlapExampleResults : List (String × List OverlapRow) :=
  [ ("a.com",
      [{ keyword := "best shoes", volume := 900, ourPosition := 3,
         competitorPosition := 2 },
       { keyword := "best shoes", volume := 900, ourPosition := 3,
         competitorPosition := 5 }]) ]

/-- The aggregated entry `overlapExampleResults` is expected to produce:
the position-5 row fails the admission filter and is dropped. -/
def overlapExampleEntry : AggregatedKeywordOverlap :=
  { keyword := "best shoes", volume := 900, ourPosition := 3,
    competitorCount := 1, competitors := [("a.com", 2)],
    avgCompetitorPosition := 2, positionGap := 1 }

/-- Overlap input on which two rows of the same keyword disagree on
`ourPosition`: the second row passes the row-local admission filter with a
position that is not below the aggregate entry's stored `ourPosition`. -/
def overlapMixedResults : List (String × List OverlapRow) :=
  [ ("a.com",
      [{ keyword := "k", volume := 10, ourPosition := 3,
         competitorPosition := 2 }]),
    ("b.com",
      [{ keyword := "k", volume := 10, ourPosition := 10,
         competitorPosition := 5 }]) ]

/-- Backlink-gap example: `shared.com` refers to us already and to both
competitors; `fresh.com` refers only to the competitors. -/
def backlinkExampleOwn : List String := ["shared.com", "mine.com"]

/-- The per-competitor referring-domain lists of the backlink-gap example. -/
def backlinkExampleResults : List (String × List RefDomainRow) :=
  [ ("a.com",
      [{ domain := "shared.com", backlinks := 40, domain_inlink_rank := 70,
         first_seen := "" },
       { domain := "fresh.com", backlinks := 10, domain_inlink_rank := 50,
         first_seen := "" }]),
    ("b.com",
      [{ domain := "shared.com", backlinks := 60, domain_inlink_rank := 75,
         first_seen := "" },
       { domain := "fresh.com", backlinks := 30, domain_inlink_rank := 65,
         first_seen := "" }]) ]

/-- The aggregated entry the backlink-gap example is expected to produce:
only `fresh.com` survives the own-domain exclusion. -/
def backlinkExampleEntry : AggregatedBacklinkGap :=
  { domain := "fresh.com", domainInlinkRank := 65, competitorCount := 2,
    totalBacklinksToCompetitors := 40,
    competitors := [("a.com", 10), ("b.com", 30)] }

/-- The brand-scoped prompt of the dedup example. -/
def promptBrandExample : AIPrompt :=
  { prompt := "best shoes", engine := "x", type := PromptType.brand,
    position := 1, volume := some 100, answer_snippet := none,
    answer_full := none, sources := none }

/-- The target-scoped prompt of the dedup example, differing from the
brand-scoped one only in letter case and classification. -/
def promptLinkExample : AIPrompt :=
  { prompt := "Best Shoes", engine := "x", type := PromptType.link,
    position := 2, volume := some 80, answer_snippet := none,
    answer_full := none, sources := none }

/-- A non-failing backlinks summary used by witnesses. -/
def backlinksSummaryExample : BacklinksSummary :=
  { backlinks := 5, backlinks_num := 5, refdomains := 2, refdomains_num := 2,
    subnets := 1, ips := 1, dofollow_backlinks := 3, nofollow_backlinks := 2,
    text_backlinks := 4, image_backlinks := 1, redirect_backlinks := 0,
    canonical_backlinks := 0, gov_backlinks := 0, edu_backlinks := 0,
    tlds := [("com", 5)], countries := [("us", 5)],
    top_anchors_by_backlinks := [("home", 3)],
    top_anchors_by_refdomains := [("home", 2)] }

/-- A raw organic overview block with ten keywords ranked in positions
1-5 and nothing else: the normalizer turns it into a top-3 figure of 6,
which is none of the numbers the provider supplied. -/
def organicExampleRaw : OrganicOverviewRaw :=
  { traffic_sum := 0, keywords_count := 10, top1_5 := 10, top6_10 := 0,
    top11_20 := 0, top21_50 := 0, top51_100 := 0 }

/-- Fetch outcomes in which only the backlinks-summary fetch fails. -/
def fetchOutcomesExample : FetchOutcomes :=
  { backlinksSummary := Except.error ()
    domainOverview := Except.ok
      { traffic := 1000, keywords := 50, keywords_top3 := 3,
        keywords_top10 := 10, keywords_top20 := 20, keywords_top50 := 30,
        keywords_top100 := 40 }
    allKeywords := Except.ok
      ([{ keyword := "buy shoes", position := 4, volume := 1000 }], 50)
    nearPageOne := Except.ok
      [{ keyword := "red shoes", position := 12, volume := 800 }] }

-- ============================================================
-- Lemmas: association-map embedding
-- ============================================================

theorem mapGet_mapSet {α : Type} (m : List (String × α)) (k k' : String)
    (v : α) :
    mapGet (mapSet m k v) k' = if k = k' then some v else mapGet m k' := by
  induction m with
  | nil =>
      simp only [mapSet, mapGet]
  | cons hd tl ih =>
      obtain ⟨a, b⟩ := hd
      by_cases hak : a = k
      · subst hak
        simp only [mapSet, if_pos rfl, mapGet]
        by_cases hk' : a = k' <;> simp [hk']
      · simp only [mapSet, if_neg hak, mapGet, ih]
        by_cases hak' : a = k'
        · subst hak'
          have : ¬ k = a := fun h => hak h.symm
          simp [this]
        · simp [hak']

theorem mapGet_eq_some_mem {α : Type} {m : List (String × α)} {k : String}
    {v : α} (h : mapGet m k = some v) : (k, v) ∈ m := by
  induction m with
  | nil => simp [mapGet] at h
  | cons hd tl ih =>
      obtain ⟨a, b⟩ := hd
      by_cases hak : a = k
      · subst hak
        have hb : b = v := by simpa [mapGet] using h
        subst hb
        exact List.mem_cons_self _ _
      · simp only [mapGet, if_neg hak] at h
        exact List.mem_cons_of_mem _ (ih h)

theorem keys_mapSet {α : Type} (m : List (String × α)) (k : String) (v : α) :
    (mapSet m k v).map (·.1) =
      if k ∈ m.map (·.1) then m.map (·.1) else m.map (·.1) ++ [k] := by
  induction m with
  | nil => simp [mapSet]
  | cons hd tl ih =>
      obtain ⟨a, b⟩ := hd
      by_cases hak : a = k
      · subst hak
        simp [mapSet]
      · simp only [mapSet, if_neg hak, List.map_cons, ih]
        have hka : ¬ k = a := fun h => hak h.symm
        by_cases hk : k ∈ tl.map (·.1)
        · simp [List.mem_cons, hk, hka]
        · simp [List.mem_cons, hk, hka]

theorem nodup_keys_mapSet {α : Type} {m : List (String × α)}
    (h : (m.map (·.1)).Nodup) (k : String) (v : α) :
    ((mapSet m k v).map (·.1)).Nodup := by
  rw [keys_mapSet]
  by_cases hk : k ∈ m.map (·.1)
  · simpa [hk] using h
  · simp only [hk, if_false]
    exact List.Nodup.append h (List.nodup_singleton k)
      (fun a ha hmem => by
        rcases List.mem_singleton.mp hmem with rfl
        exact hk ha)

theorem mapGet_of_mem_nodup {α : Type} {m : List (String × α)} {k : String}
    {v : α} (hn : (m.map (·.1)).Nodup) (hm : (k, v) ∈ m) :
    mapGet m k = some v := by
  induction m with
  | nil => simp at hm
  | cons hd tl ih =>
      obtain ⟨a, b⟩ := hd
      simp only [List.map_cons, List.nodup_cons] at hn
      rcases List.mem_cons.mp hm with h | h
      · injection h with h1 h2
        subst h1
        subst h2
        simp [mapGet]
      · have hak : ¬ a = k := by
          intro hak
          subst hak
          exact hn.1 (List.mem_map.mpr ⟨(a, v), h, rfl⟩)
        simp only [mapGet, if_neg hak]
        exact ih hn.2 h

-- ============================================================
-- Lemmas: fold-style maxima and minima
-- ============================================================

theorem le_foldl_max (l : List Int) (a : Int) : a ≤ l.foldl max a := by
  induction l generalizing a with
  | nil => exact le_refl a
  | cons hd tl ih =>
      exact le_trans (le_max_left a hd) (ih (max a hd))

theorem mem_le_foldl_max {l : List Int} {x : Int} (h : x ∈ l) (a : Int) :
    x ≤ l.foldl max a := by
  induction l generalizing a with
  | nil => simp at h
  | cons hd tl ih =>
      rcases List.mem_cons.mp h with rfl | h'
      · exact le_trans (le_max_right a x) (le_foldl_max tl (max a x))
      · exact ih h' (max a hd)

theorem foldl_max_mem (l : List Int) (a : Int) :
    l.foldl max a = a ∨ l.foldl max a ∈ l := by
  induction l generalizing a with
  | nil => exact Or.inl rfl
  | cons hd tl ih =>
      rcases ih (max a hd) with h | h
      · rcases max_cases a hd with ⟨hm, _⟩ | ⟨hm, _⟩
        · exact Or.inl (by rw [List.foldl_cons, h, hm])
        · exact Or.inr (by rw [List.foldl_cons, h, hm]; exact List.mem_cons_self _ _)
      · exact Or.inr (List.mem_cons_of_mem _ h)

theorem maxList_mem {l : List Int} (h : l ≠ []) : maxList l ∈ l := by
  cases l with
  | nil => exact absurd rfl h
  | cons hd tl =>
      show tl.foldl max hd ∈ hd :: tl
      rcases foldl_max_mem tl hd with h' | h'
      · rw [h']
        exact List.mem_cons_self _ _
      · exact List.mem_cons_of_mem _ h'

theorem le_maxList {l : List Int} {x : Int} (h : x ∈ l) : x ≤ maxList l := by
  cases l with
  | nil => simp at h
  | cons hd tl =>
      rcases List.mem_cons.mp h with rfl | h'
      · exact le_foldl_max tl x
      · exact mem_le_foldl_max h' hd

theorem foldl_min_le (l : List Int) (a : Int) : l.foldl min a ≤ a := by
  induction l generalizing a with
  | nil => exact le_refl a
  | cons hd tl ih =>
      exact le_trans (ih (min a hd)) (min_le_left a hd)

theorem foldl_min_le_mem {l : List Int} {x : Int} (h : x ∈ l) (a : Int) :
    l.foldl min a ≤ x := by
  induction l generalizing a with
  | nil => simp at h
  | cons hd tl ih =>
      rcases List.mem_cons.mp h with rfl | h'
      · exact le_trans (foldl_min_le tl (min a x)) (min_le_right a x)
      · exact ih h' (min a hd)

theorem foldl_min_mem (l : List Int) (a : Int) :
    l.foldl min a = a ∨ l.foldl min a ∈ l := by
  induction l generalizing a with
  | nil => exact Or.inl rfl
  | cons hd tl ih =>
      rcases ih (min a hd) with h | h
      · rcases min_cases a hd with ⟨hm, _⟩ | ⟨hm, _⟩
        · exact Or.inl (by rw [List.foldl_cons, h, hm])
        · exact Or.inr (by rw [List.foldl_cons, h, hm]; exact List.mem_cons_self _ _)
      · exact Or.inr (List.mem_cons_of_mem _ h)

theorem jsMin_mem {l : List Int} (h : l ≠ []) : jsMin l ∈ l := by
  cases l with
  | nil => exact absurd rfl h
  | cons hd tl =>
      show tl.foldl min hd ∈ hd :: tl
      rcases foldl_min_mem tl hd with h' | h'
      · rw [h']
        exact List.mem_cons_self _ _
      · exact List.mem_cons_of_mem _ h'

theorem jsMin_le {l : List Int} {x : Int} (h : x ∈ l) : jsMin l ≤ x := by
  cases l with
  | nil => simp at h
  | cons hd tl =>
      rcases List.mem_cons.mp h with rfl | h'
      · exact foldl_min_le tl x
      · exact foldl_min_le_mem h' hd

-- ============================================================
-- Lemmas: keyword-gap fold characterization
-- ============================================================

theorem mapGet_gapStep (m : List (String × GapAcc)) (c : String)
    (g : KeywordGapRow) (k : String) :
    mapGet (gapStep m c g) k =
      if g.keyword = k then gapAccStep k (mapGet m k) (c, g)
      else mapGet m k := by
  unfold gapStep
  cases hg : mapGet m g.keyword with
  | some existing =>
      rw [mapGet_mapSet]
      by_cases hk : g.keyword = k
      · subst hk
        simp [gapAccStep, hg]
      · simp [hk]
  | none =>
      rw [mapGet_mapSet]
      by_cases hk : g.keyword = k
      · subst hk
        simp [gapAccStep, hg]
      · simp [hk]

theorem foldl_gapStep_get (ps : List (String × KeywordGapRow))
    (m0 : List (String × GapAcc)) (k : String) :
    mapGet (ps.foldl (fun m cg => gapStep m cg.1 cg.2) m0) k =
      (ps.filter (fun cg => cg.2.keyword = k)).foldl (gapAccStep k)
        (mapGet m0 k) := by
  induction ps generalizing m0 with
  | nil => rfl
  | cons hd tl ih =>
      simp only [List.foldl_cons, List.filter_cons]
      rw [ih]
      by_cases h : hd.2.keyword = k
      · simp [h, mapGet_gapStep]
      · simp [h, mapGet_gapStep]

theorem gapFold_eq_flat (results : List (String × List KeywordGapRow)) :
    gapFold results =
      (gapPairs results).foldl (fun m cg => gapStep m cg.1 cg.2) [] := by
  unfold gapFold gapPairs
  generalize ([] : List (String × GapAcc)) = m0
  induction results generalizing m0 with
  | nil => rfl
  | cons hd tl ih =>
      simp only [List.foldl_cons, List.flatMap_cons, List.foldl_append,
        List.foldl_map]
      exact ih _

theorem foldl_gapAccStep_some (k : String)
    (l : List (String × KeywordGapRow)) (e : GapAcc) :
    l.foldl (gapAccStep k) (some e) =
      some { e with
             volume := (l.map (·.2.volume)).foldl max e.volume
             difficulty := (l.map (·.2.difficulty)).foldl max e.difficulty
             competitors := e.competitors ++
               l.map (fun cg => (cg.1, cg.2.competitor_position)) } := by
  induction l generalizing e with
  | nil => simp
  | cons hd tl ih =>
      simp only [List.foldl_cons, gapAccStep, List.map_cons]
      rw [ih]
      simp [List.append_assoc]

theorem foldl_gapAccStep_none (k : String)
    (l : List (String × KeywordGapRow)) :
    l.foldl (gapAccStep k) none = gapAccOf k l := by
  cases l with
  | nil => rfl
  | cons hd tl =>
      simp only [List.foldl_cons, gapAccStep, gapAccOf]
      rw [foldl_gapAccStep_some]
      simp [maxList]

theorem gapFold_get (results : List (String × List KeywordGapRow))
    (k : String) :
    mapGet (gapFold results) k = gapAccOf k (gapContribs results k) := by
  rw [gapFold_eq_flat, foldl_gapStep_get]
  show (gapContribs results k).foldl (gapAccStep k) (mapGet [] k) = _
  rw [show mapGet ([] : List (String × GapAcc)) k = none from rfl]
  exact foldl_gapAccStep_none k _

theorem nodup_keys_gapStep {m : List (String × GapAcc)}
    (h : (m.map (·.1)).Nodup) (c : String) (g : KeywordGapRow) :
    ((gapStep m c g).map (·.1)).Nodup := by
  unfold gapStep
  cases mapGet m g.keyword with
  | some existing => exact nodup_keys_mapSet h _ _
  | none => exact nodup_keys_mapSet h _ _

theorem nodup_keys_gapFold (results : List (String × List KeywordGapRow)) :
    ((gapFold results).map (·.1)).Nodup := by
  rw [gapFold_eq_flat]
  generalize hps : gapPairs results = ps
  have : ∀ (ps : List (String × KeywordGapRow)) (m0 : List (String × GapAcc)),
      (m0.map (·.1)).Nodup →
      (((ps.foldl (fun m cg => gapStep m cg.1 cg.2) m0)).map (·.1)).Nodup := by
    intro ps
    induction ps with
    | nil => intro m0 h; exact h
    | cons hd tl ih =>
        intro m0 h
        exact ih _ (nodup_keys_gapStep h hd.1 hd.2)
  exact this ps [] List.nodup_nil

theorem exists_acc_of_mem_gapAggregateAll
    {results : List (String × List KeywordGapRow)} {e : AggregatedKeywordGap}
    (he : e ∈ gapAggregateAll results) :
    ∃ item : GapAcc,
      gapAccOf item.keyword (gapContribs results item.keyword) = some item ∧
      e = finalizeGap item := by
  have h1 : e ∈ ((gapFold results).map (·.2)).map finalizeGap :=
    (List.perm_insertionSort gapRel _).mem_iff.mp he
  obtain ⟨item, hitem, hfin⟩ := List.mem_map.mp h1
  obtain ⟨kv, hkv, hsnd⟩ := List.mem_map.mp hitem
  have hget : mapGet (gapFold results) kv.1 = some item := by
    have := mapGet_of_mem_nodup (nodup_keys_gapFold results)
      (show (kv.1, item) ∈ gapFold results from hsnd ▸ (by
        obtain ⟨k1, v1⟩ := kv
        exact hkv))
    exact this
  rw [gapFold_get] at hget
  have hkey : item.keyword = kv.1 := by
    cases hcon : gapContribs results kv.1 with
    | nil => rw [hcon] at hget; simp [gapAccOf] at hget
    | cons a l =>
        rw [hcon] at hget
        simp only [gapAccOf, Option.some.injEq] at hget
        rw [← hget]
  exact ⟨item, by rw [hkey]; exact hget, hfin.symm⟩

theorem gapAggregateAll_complete
    (results : List (String × List KeywordGapRow)) (k : String)
    (h : gapContribs results k ≠ []) :
    ∃ e ∈ gapAggregateAll results, e.keyword = k := by
  obtain ⟨item, hitem⟩ : ∃ item, gapAccOf k (gapContribs results k) = some item := by
    cases hcon : gapContribs results k with
    | nil => exact absurd hcon h
    | cons a l => exact ⟨_, rfl⟩
  have hget : mapGet (gapFold results) k = some item := by
    rw [gapFold_get, hitem]
  have hmem : (k, item) ∈ gapFold results := mapGet_eq_some_mem hget
  have hkey : item.keyword = k := by
    cases hcon : gapContribs results k with
    | nil => exact absurd hcon h
    | cons a l =>
        rw [hcon] at hitem
        simp only [gapAccOf, Option.some.injEq] at hitem
        rw [← hitem]
  refine ⟨finalizeGap item, ?_, ?_⟩
  · exact (List.perm_insertionSort gapRel _).mem_iff.mpr
      (List.mem_map.mpr ⟨item,
        List.mem_map.mpr ⟨(k, item), hmem, rfl⟩, rfl⟩)
  · exact hkey

-- ============================================================
-- C1 : keyword-gap aggregation
-- ============================================================

/-- C1: `getMultiCompetitorKeywordGaps` produces one entry per distinct
keyword (pairwise-distinct keywords in the output, and before truncation
every contributed keyword has an entry); each entry's volume and difficulty
are the maxima over the keyword's contributions, its competitors list has
one (domain, position) pair per contribution so that `competitorCount`
equals its length, `avgPosition` is the rounded mean of the contributed
positions and `bestPosition` their minimum; the output is sorted by
`competitorCount` descending then `volume` descending and truncated to the
caller-specified limit. -/
theorem keywordGaps_aggregation_correct
    (results : List (String × List KeywordGapRow)) (limit : Nat) :
    getMultiCompetitorKeywordGaps results limit =
        (gapAggregateAll results).take limit ∧
    (getMultiCompetitorKeywordGaps results limit).length ≤ limit ∧
    ((getMultiCompetitorKeywordGaps results limit).map (·.keyword)).Nodup ∧
    (∀ k, gapContribs results k ≠ [] →
        ∃ e ∈ gapAggregateAll results, e.keyword = k) ∧
    List.Pairwise gapRel (getMultiCompetitorKeywordGaps results limit) ∧
    ∀ e ∈ getMultiCompetitorKeywordGaps results limit,
      e.competitors = (gapContribs results e.keyword).map
          (fun cg => (cg.1, cg.2.competitor_position)) ∧
      e.competitorCount = e.competitors.length ∧
      e.volume ∈ (gapContribs results e.keyword).map (·.2.volume) ∧
      (∀ v ∈ (gapContribs results e.keyword).map (·.2.volume), v ≤ e.volume) ∧
      e.difficulty ∈ (gapContribs results e.keyword).map (·.2.difficulty) ∧
      (∀ d ∈ (gapContribs results e.keyword).map (·.2.difficulty),
          d ≤ e.difficulty) ∧
      e.avgPosition =
        jsRound ((e.competitors.map (·.2)).sum) (e.competitors.length : Int) ∧
      e.bestPosition ∈ e.competitors.map (·.2) ∧
      (∀ p ∈ e.competitors.map (·.2), e.bestPosition ≤ p) := by
  have hkeys := nodup_keys_gapFold results
  refine ⟨rfl, List.length_take_le _ _, ?_, ?_, ?_, ?_⟩
  · -- keywords of the output are pairwise distinct
    have hwf : ∀ kv ∈ gapFold results, (kv.2 : GapAcc).keyword = kv.1 := by
      rintro ⟨k, v⟩ hkv
      have hget := mapGet_of_mem_nodup hkeys hkv
      rw [gapFold_get] at hget
      cases hcon : gapContribs results k with
      | nil => rw [hcon] at hget; simp [gapAccOf] at hget
      | cons a l =>
          rw [hcon] at hget
          injection hget with hrec
          rw [← hrec]
    have hmapeq :
        (((gapFold results).map (·.2)).map finalizeGap).map (·.keyword) =
          (gapFold results).map (·.1) := by
      rw [List.map_map, List.map_map]
      exact List.map_congr_left (fun kv hkv => hwf kv hkv)
    have hperm :
        ((gapAggregateAll results).map (·.keyword)).Perm
          ((((gapFold results).map (·.2)).map finalizeGap).map (·.keyword)) :=
      (List.perm_insertionSort gapRel _).map _
    have hfull : ((gapAggregateAll results).map (·.keyword)).Nodup :=
      (hperm.nodup_iff).mpr (hmapeq ▸ hkeys)
    exact hfull.sublist ((List.take_sublist _ _).map _)
  · exact gapAggregateAll_complete results
  · exact ((List.sorted_insertionSort gapRel _).sublist
      (List.take_sublist _ _) :)
  · intro e he
    have he' : e ∈ gapAggregateAll results :=
      (List.take_sublist _ _).subset he
    obtain ⟨item, hacc, rfl⟩ := exists_acc_of_mem_gapAggregateAll he'
    cases hcon : gapContribs results item.keyword with
    | nil => rw [hcon] at hacc; simp [gapAccOf] at hacc
    | cons a l =>
        rw [hcon] at hacc
        injection hacc with hrec
        have hvol : item.volume = maxList ((a :: l).map (·.2.volume)) := by
          rw [← hrec]
        have hdif : item.difficulty =
            maxList ((a :: l).map (·.2.difficulty)) := by
          rw [← hrec]
        have hcomp : item.competitors =
            (a :: l).map (fun cg => (cg.1, cg.2.competitor_position)) := by
          rw [← hrec]
        have hkey : (finalizeGap item).keyword = item.keyword := rfl
        refine ⟨?_, rfl, ?_, ?_, ?_, ?_, rfl, ?_, ?_⟩
        · show item.competitors = _
          rw [hkey, hcon, hcomp]
        · show item.volume ∈ _
          rw [hkey, hcon, hvol]
          exact maxList_mem (by simp)
        · intro v hv
          rw [hkey, hcon] at hv
          show v ≤ item.volume
          rw [hvol]
          exact le_maxList hv
        · show item.difficulty ∈ _
          rw [hkey, hcon, hdif]
          exact maxList_mem (by simp)
        · intro d hd
          rw [hkey, hcon] at hd
          show d ≤ item.difficulty
          rw [hdif]
          exact le_maxList hd
        · show jsMin _ ∈ _
          exact jsMin_mem (by
            show item.competitors.map (·.2) ≠ []
            rw [hcomp]
            simp)
        · intro p hp
          exact jsMin_le hp

/-- Witness for C1 on the specification's worked example. -/
theorem keywordGaps_aggregation_correct_witness :
    gapContribs gapExampleResults "buy shoes" ≠ [] ∧
    gapExampleEntry ∈ getMultiCompetitorKeywordGaps gapExampleResults 10 ∧
    gapExampleEntry.volume ∈
      (gapContribs gapExampleResults gapExampleEntry.keyword).map
        (·.2.volume) :=
  ⟨by decide, by decide,
    ((keywordGaps_aggregation_correct gapExampleResults 10).2.2.2.2.2
      gapExampleEntry (by decide)).2.2.1⟩

-- ============================================================
-- Lemmas: keyword-overlap fold characterization
-- ============================================================

theorem mapGet_overlapStep (m : List (String × OverlapAcc)) (c : String)
    (r : OverlapRow) (k : String) :
    mapGet (overlapStep m c r) k =
      if r.keyword = k ∧ r.competitorPosition < r.ourPosition then
        overlapAccStep k (mapGet m k) (c, r)
      else mapGet m k := by
  unfold overlapStep
  by_cases hadm : r.competitorPosition < r.ourPosition
  · simp only [if_pos hadm]
    cases hg : mapGet m r.keyword with
    | some existing =>
        rw [mapGet_mapSet]
        by_cases hk : r.keyword = k
        · subst hk
          simp [overlapAccStep, hg, hadm]
        · simp [hk]
    | none =>
        rw [mapGet_mapSet]
        by_cases hk : r.keyword = k
        · subst hk
          simp [overlapAccStep, hg, hadm]
        · simp [hk]
  · simp only [if_neg hadm]
    have : ¬ (r.keyword = k ∧ r.competitorPosition < r.ourPosition) :=
      fun h => hadm h.2
    simp [this]

theorem foldl_overlapStep_get (ps : List (String × OverlapRow))
    (m0 : List (String × OverlapAcc)) (k : String) :
    mapGet (ps.foldl (fun m cg => overlapStep m cg.1 cg.2) m0) k =
      (ps.filter (fun cg =>
          cg.2.keyword = k ∧ cg.2.competitorPosition < cg.2.ourPosition)).foldl
        (overlapAccStep k) (mapGet m0 k) := by
  induction ps generalizing m0 with
  | nil => rfl
  | cons hd tl ih =>
      simp only [List.foldl_cons, List.filter_cons]
      rw [ih]
      by_cases h : hd.2.keyword = k ∧ hd.2.competitorPosition < hd.2.ourPosition
      · simp [h, mapGet_overlapStep]
      · simp [h, mapGet_overlapStep]

theorem overlapFold_eq_flat (results : List (String × List OverlapRow)) :
    overlapFold results =
      (overlapPairs results).foldl (fun m cg => overlapStep m cg.1 cg.2) [] := by
  unfold overlapFold overlapPairs
  generalize ([] : List (String × OverlapAcc)) = m0
  induction results generalizing m0 with
  | nil => rfl
  | cons hd tl ih =>
      simp only [List.foldl_cons, List.flatMap_cons, List.foldl_append,
        List.foldl_map]
      exact ih _

theorem foldl_overlapAccStep_some (k : String)
    (l : List (String × OverlapRow)) (e : OverlapAcc) :
    l.foldl (overlapAccStep k) (some e) =
      some { e with
             volume := (l.map (·.2.volume)).foldl max e.volume
             competitors := e.competitors ++
               l.map (fun cg => (cg.1, cg.2.competitorPosition)) } := by
  induction l generalizing e with
  | nil => simp
  | cons hd tl ih =>
      simp only [List.foldl_cons, overlapAccStep, List.map_cons]
      rw [ih]
      simp [List.append_assoc]

theorem foldl_overlapAccStep_none (k : String)
    (l : List (String × OverlapRow)) :
    l.foldl (overlapAccStep k) none = overlapAccOf k l := by
  cases l with
  | nil => rfl
  | cons hd tl =>
      simp only [List.foldl_cons, overlapAccStep, overlapAccOf]
      rw [foldl_overlapAccStep_some]
      simp [maxList]

theorem overlapFold_get (results : List (String × List OverlapRow))
    (k : String) :
    mapGet (overlapFold results) k = overlapAccOf k (overlapContribs results k) := by
  rw [overlapFold_eq_flat, foldl_overlapStep_get]
  show (overlapContribs results k).foldl (overlapAccStep k) (mapGet [] k) = _
  rw [show mapGet ([] : List (String × OverlapAcc)) k = none from rfl]
  exact foldl_overlapAccStep_none k _

theorem nodup_keys_overlapStep {m : List (String × OverlapAcc)}
    (h : (m.map (·.1)).Nodup) (c : String) (r : OverlapRow) :
    ((overlapStep m c r).map (·.1)).Nodup := by
  unfold overlapStep
  by_cases hadm : r.competitorPosition < r.ourPosition
  · simp only [if_pos hadm]
    cases mapGet m r.keyword with
    | some existing => exact nodup_keys_mapSet h _ _
    | none => exact nodup_keys_mapSet h _ _
  · simpa [if_neg hadm] using h

theorem nodup_keys_overlapFold (results : List (String × List OverlapRow)) :
    ((overlapFold results).map (·.1)).Nodup := by
  rw [overlapFold_eq_flat]
  generalize hps : overlapPairs results = ps
  have : ∀ (ps : List (String × OverlapRow)) (m0 : List (String × OverlapAcc)),
      (m0.map (·.1)).Nodup →
      (((ps.foldl (fun m cg => overlapStep m cg.1 cg.2) m0)).map (·.1)).Nodup := by
    intro ps
    induction ps with
    | nil => intro m0 h; exact h
    | cons hd tl ih =>
        intro m0 h
        exact ih _ (nodup_keys_overlapStep h hd.1 hd.2)
  exact this ps [] List.nodup_nil

theorem exists_acc_of_mem_overlapAggregateAll
    {results : List (String × List OverlapRow)}
    {e : AggregatedKeywordOverlap}
    (he : e ∈ overlapAggregateAll results) :
    ∃ item : OverlapAcc,
      overlapAccOf item.keyword (overlapContribs results item.keyword) =
        some item ∧
      e = finalizeOverlap item := by
  have h1 : e ∈ ((overlapFold results).map (·.2)).map finalizeOverlap :=
    (List.perm_insertionSort overlapRel _).mem_iff.mp he
  obtain ⟨item, hitem, hfin⟩ := List.mem_map.mp h1
  obtain ⟨kv, hkv, hsnd⟩ := List.mem_map.mp hitem
  have hget : mapGet (overlapFold results) kv.1 = some item :=
    mapGet_of_mem_nodup (nodup_keys_overlapFold results)
      (show (kv.1, item) ∈ overlapFold results from hsnd ▸ (by
        obtain ⟨k1, v1⟩ := kv
        exact hkv))
  rw [overlapFold_get] at hget
  have hkey : item.keyword = kv.1 := by
    cases hcon : overlapContribs results kv.1 with
    | nil => rw [hcon] at hget; simp [overlapAccOf] at hget
    | cons a l =>
        rw [hcon] at hget
        injection hget with hrec
        rw [← hrec]
  exact ⟨item, by rw [hkey]; exact hget, hfin.symm⟩

-- ============================================================
-- C3 : keyword-overlap admission
-- ============================================================

theorem foldl_overlapStep_filter (l : List OverlapRow) (c : String)
    (m0 : List (String × OverlapAcc)) :
    (l.filter (fun r => r.competitorPosition < r.ourPosition)).foldl
        (fun m r => overlapStep m c r) m0 =
      l.foldl (fun m r => overlapStep m c r) m0 := by
  induction l generalizing m0 with
  | nil => rfl
  | cons hd tl ih =>
      by_cases hadm : hd.competitorPosition < hd.ourPosition
      · have hfil : (hd :: tl).filter
              (fun r => r.competitorPosition < r.ourPosition) =
            hd :: tl.filter (fun r => r.competitorPosition < r.ourPosition) := by
          simp [List.filter_cons, hadm]
        rw [hfil, List.foldl_cons, List.foldl_cons]
        exact ih _
      · have hid : overlapStep m0 c hd = m0 := by
          simp [overlapStep, hadm]
        have hfil : (hd :: tl).filter
              (fun r => r.competitorPosition < r.ourPosition) =
            tl.filter (fun r => r.competitorPosition < r.ourPosition) := by
          simp [List.filter_cons, hadm]
        rw [hfil, ih, List.foldl_cons, hid]

theorem overlapFold_filter_admitted (results : List (String × List OverlapRow)) :
    overlapFold (results.map (fun cr =>
        (cr.1, cr.2.filter (fun r => r.competitorPosition < r.ourPosition)))) =
      overlapFold results := by
  unfold overlapFold
  generalize ([] : List (String × OverlapAcc)) = m0
  induction results generalizing m0 with
  | nil => rfl
  | cons hd tl ih =>
      simp only [List.map_cons, List.foldl_cons]
      rw [foldl_overlapStep_filter]
      exact ih _

/-- C3 (amended): the overlap fold admits a row only when that row's own
`competitorPosition` is strictly below that row's own `ourPosition`; rows
failing the filter contribute nothing (pre-filtering the inputs on the
admission test leaves the aggregate unchanged); every (domain, position)
pair of every output entry comes from an admitted row and hence satisfies
`position < that row's ourPosition`; when all rows for the entry's keyword
agree on `ourPosition` (the intended shape of the data) every pair
satisfies `position < the entry's ourPosition`; `positionGap` equals the
entry's `ourPosition` minus the rounded mean of the admitted positions. -/
theorem keywordOverlaps_admission_correct
    (results : List (String × List OverlapRow)) (limit : Nat) :
    getMultiCompetitorKeywordOverlaps
        (results.map (fun cr =>
          (cr.1, cr.2.filter (fun r => r.competitorPosition < r.ourPosition))))
        limit =
      getMultiCompetitorKeywordOverlaps results limit ∧
    ∀ e ∈ getMultiCompetitorKeywordOverlaps results limit,
      e.competitors = (overlapContribs results e.keyword).map
          (fun cg => (cg.1, cg.2.competitorPosition)) ∧
      (∀ pr ∈ e.competitors,
        ∃ cg ∈ overlapContribs results e.keyword,
          pr = (cg.1, cg.2.competitorPosition) ∧
          cg.2.competitorPosition < cg.2.ourPosition) ∧
      ((∀ cg ∈ overlapContribs results e.keyword,
          cg.2.ourPosition = e.ourPosition) →
        ∀ pr ∈ e.competitors, pr.2 < e.ourPosition) ∧
      e.avgCompetitorPosition =
        jsRound ((e.competitors.map (·.2)).sum) (e.competitors.length : Int) ∧
      e.positionGap = e.ourPosition - e.avgCompetitorPosition := by
  constructor
  · unfold getMultiCompetitorKeywordOverlaps overlapAggregateAll
    rw [overlapFold_filter_admitted]
  · intro e he
    have he' : e ∈ overlapAggregateAll results :=
      (List.take_sublist _ _).subset he
    obtain ⟨item, hacc, rfl⟩ := exists_acc_of_mem_overlapAggregateAll he'
    cases hcon : overlapContribs results item.keyword with
    | nil => rw [hcon] at hacc; simp [overlapAccOf] at hacc
    | cons a l =>
        rw [hcon] at hacc
        injection hacc with hrec
        have hcomp : item.competitors =
            (a :: l).map (fun cg => (cg.1, cg.2.competitorPosition)) := by
          rw [← hrec]
        have hkey : (finalizeOverlap item).keyword = item.keyword := rfl
        have hcompeq :
            (finalizeOverlap item).competitors =
              (overlapContribs results (finalizeOverlap item).keyword).map
                (fun cg => (cg.1, cg.2.competitorPosition)) := by
          show item.competitors = _
          rw [hkey, hcon, hcomp]
        refine ⟨hcompeq, ?_, ?_, rfl, rfl⟩
        · intro pr hpr
          rw [hcompeq] at hpr
          obtain ⟨cg, hcg, hpr'⟩ := List.mem_map.mp hpr
          refine ⟨cg, hcg, hpr'.symm, ?_⟩
          have := List.of_mem_filter hcg
          exact (of_decide_eq_true this).2
        · intro hcons pr hpr
          rw [hcompeq] at hpr
          obtain ⟨cg, hcg, hpr'⟩ := List.mem_map.mp hpr
          have hadm : cg.2.competitorPosition < cg.2.ourPosition := by
            have := List.of_mem_filter hcg
            exact (of_decide_eq_true this).2
          have hour := hcons cg hcg
          rw [← hpr']
          show cg.2.competitorPosition < (finalizeOverlap item).ourPosition
          rw [← hour]
          exact hadm

/-- Witness for C3 on an input whose rows agree on `ourPosition`: the
admitted pair's position is strictly below the entry's `ourPosition`. -/
theorem keywordOverlaps_admission_correct_witness :
    overlapExampleEntry ∈
      getMultiCompetitorKeywordOverlaps overlapExampleResults 10 ∧
    ((2 : Int) < overlapExampleEntry.ourPosition) :=
  ⟨by decide,
    (((keywordOverlaps_admission_correct overlapExampleResults 10).2
      overlapExampleEntry (by decide)).2.2.1 (by decide)
      ("a.com", (2 : Int)) (by decide) :)⟩

/-- Counterexample to C3 as stated: when two admitted rows of the same
keyword carry different `ourPosition` values, the aggregate keeps the first
row's `ourPosition` (3) while admitting the second row's pair at position 5,
so not every pair satisfies `position < ourPosition`. -/
theorem keywordOverlaps_strict_counterexample :
    (getMultiCompetitorKeywordOverlaps overlapMixedResults 10).map
        (fun e => (e.ourPosition, e.competitors)) =
      [((3 : Int), [("a.com", (2 : Int)), ("b.com", (5 : Int))])] ∧
    ¬ ((5 : Int) < (3 : Int)) := by
  decide

-- ============================================================
-- Lemmas: backlink-gap fold characterization
-- ============================================================

theorem mapGet_backlinkStep (own : List String)
    (m : List (String × BacklinkAcc)) (c : String) (r : RefDomainRow)
    (k : String) :
    mapGet (backlinkStep own m c r) k =
      if r.domain = k ∧ r.domain ∉ own then
        backlinkAccStep k (mapGet m k) (c, r)
      else mapGet m k := by
  unfold backlinkStep
  by_cases hown : r.domain ∈ own
  · have : ¬ (r.domain = k ∧ r.domain ∉ own) := fun h => h.2 hown
    simp [hown, this]
  · simp only [if_neg hown]
    cases hg : mapGet m r.domain with
    | some existing =>
        rw [mapGet_mapSet]
        by_cases hk : r.domain = k
        · subst hk
          simp [backlinkAccStep, hg, hown]
        · simp [hk]
    | none =>
        rw [mapGet_mapSet]
        by_cases hk : r.domain = k
        · subst hk
          simp [backlinkAccStep, hg, hown]
        · simp [hk]

theorem foldl_backlinkStep_get (own : List String)
    (ps : List (String × RefDomainRow)) (m0 : List (String × BacklinkAcc))
    (k : String) :
    mapGet (ps.foldl (fun m cg => backlinkStep own m cg.1 cg.2) m0) k =
      (ps.filter (fun cg => cg.2.domain = k ∧ cg.2.domain ∉ own)).foldl
        (backlinkAccStep k) (mapGet m0 k) := by
  induction ps generalizing m0 with
  | nil => rfl
  | cons hd tl ih =>
      simp only [List.foldl_cons, List.filter_cons]
      rw [ih]
      by_cases h : hd.2.domain = k ∧ hd.2.domain ∉ own
      · obtain ⟨h1, h2⟩ := h
        have hk : k ∉ own := h1 ▸ h2
        simp [mapGet_backlinkStep, h1, h2, hk]
      · simp [h, mapGet_backlinkStep]

theorem backlinkFold_eq_flat (own : List String)
    (results : List (String × List RefDomainRow)) :
    backlinkFold own results =
      (backlinkPairs results).foldl
        (fun m cg => backlinkStep own m cg.1 cg.2) [] := by
  unfold backlinkFold backlinkPairs
  generalize ([] : List (String × BacklinkAcc)) = m0
  induction results generalizing m0 with
  | nil => rfl
  | cons hd tl ih =>
      simp only [List.foldl_cons, List.flatMap_cons, List.foldl_append,
        List.foldl_map]
      exact ih _

theorem foldl_backlinkAccStep_some (k : String)
    (l : List (String × RefDomainRow)) (e : BacklinkAcc) :
    l.foldl (backlinkAccStep k) (some e) =
      some { e with
             domainInlinkRank :=
               (l.map (·.2.domain_inlink_rank)).foldl max e.domainInlinkRank
             totalBacklinks := e.totalBacklinks + (l.map (·.2.backlinks)).sum
             competitors := e.competitors ++
               l.map (fun cg => (cg.1, cg.2.backlinks)) } := by
  induction l generalizing e with
  | nil => simp
  | cons hd tl ih =>
      simp only [List.foldl_cons, backlinkAccStep, List.map_cons]
      rw [ih]
      simp only [List.sum_cons]
      have hsum : e.totalBacklinks + hd.2.backlinks +
          (tl.map (·.2.backlinks)).sum =
        e.totalBacklinks + (hd.2.backlinks + (tl.map (·.2.backlinks)).sum) := by
        ring
      rw [hsum]
      simp [List.append_assoc]

theorem foldl_backlinkAccStep_none (k : String)
    (l : List (String × RefDomainRow)) :
    l.foldl (backlinkAccStep k) none = backlinkAccOf k l := by
  cases l with
  | nil => rfl
  | cons hd tl =>
      simp only [List.foldl_cons, backlinkAccStep, backlinkAccOf]
      rw [foldl_backlinkAccStep_some]
      simp [maxList]

theorem backlinkFold_get (own : List String)
    (results : List (String × List RefDomainRow)) (k : String) :
    mapGet (backlinkFold own results) k =
      backlinkAccOf k
        ((backlinkPairs results).filter
          (fun cg => cg.2.domain = k ∧ cg.2.domain ∉ own)) := by
  rw [backlinkFold_eq_flat, foldl_backlinkStep_get]
  rw [show mapGet ([] : List (String × BacklinkAcc)) k = none from rfl]
  exact foldl_backlinkAccStep_none k _

theorem nodup_keys_backlinkStep (own : List String)
    {m : List (String × BacklinkAcc)} (h : (m.map (·.1)).Nodup) (c : String)
    (r : RefDomainRow) :
    ((backlinkStep own m c r).map (·.1)).Nodup := by
  unfold backlinkStep
  by_cases hown : r.domain ∈ own
  · simpa [hown] using h
  · simp only [if_neg hown]
    cases mapGet m r.domain with
    | some existing => exact nodup_keys_mapSet h _ _
    | none => exact nodup_keys_mapSet h _ _

theorem nodup_keys_backlinkFold (own : List String)
    (results : List (String × List RefDomainRow)) :
    ((backlinkFold own results).map (·.1)).Nodup := by
  rw [backlinkFold_eq_flat]
  generalize hps : backlinkPairs results = ps
  have : ∀ (ps : List (String × RefDomainRow))
      (m0 : List (String × BacklinkAcc)),
      (m0.map (·.1)).Nodup →
      (((ps.foldl (fun m cg => backlinkStep own m cg.1 cg.2) m0)).map
        (·.1)).Nodup := by
    intro ps
    induction ps with
    | nil => intro m0 h; exact h
    | cons hd tl ih =>
        intro m0 h
        exact ih _ (nodup_keys_backlinkStep own h hd.1 hd.2)
  exact this ps [] List.nodup_nil

theorem exists_acc_of_mem_backlinkAggregateAll
    {own : List String} {results : List (String × List RefDomainRow)}
    {e : AggregatedBacklinkGap}
    (he : e ∈ backlinkAggregateAll own results) :
    ∃ item : BacklinkAcc,
      backlinkAccOf item.domain
          ((backlinkPairs results).filter
            (fun cg => cg.2.domain = item.domain ∧ cg.2.domain ∉ own)) =
        some item ∧
      e = finalizeBacklink item := by
  have h1 : e ∈ ((backlinkFold own results).map (·.2)).map finalizeBacklink :=
    (List.perm_insertionSort backlinkRel _).mem_iff.mp he
  obtain ⟨item, hitem, hfin⟩ := List.mem_map.mp h1
  obtain ⟨kv, hkv, hsnd⟩ := List.mem_map.mp hitem
  have hget : mapGet (backlinkFold own results) kv.1 = some item :=
    mapGet_of_mem_nodup (nodup_keys_backlinkFold own results)
      (show (kv.1, item) ∈ backlinkFold own results from hsnd ▸ (by
        obtain ⟨k1, v1⟩ := kv
        exact hkv))
  rw [backlinkFold_get] at hget
  have hkey : item.domain = kv.1 := by
    cases hcon : (backlinkPairs results).filter
        (fun cg => cg.2.domain = kv.1 ∧ cg.2.domain ∉ own) with
    | nil => rw [hcon] at hget; simp [backlinkAccOf] at hget
    | cons a l =>
        rw [hcon] at hget
        injection hget with hrec
        rw [← hrec]
  exact ⟨item, by rw [hkey]; exact hget, hfin.symm⟩

-- ============================================================
-- C4 : backlink-gap aggregation
-- ============================================================

/-- C4: `getMultiCompetitorBacklinkGaps` never emits an entry whose domain
is in the own referring-domain set, even when several competitors reference
that domain; each emitted entry's `domainInlinkRank` is the maximum
authority seen across its contributions, `totalBacklinksToCompetitors` is
the sum of the contributed backlink counts, and the competitors list has
one (domain, backlinks) pair per contribution. -/
theorem backlinkGaps_aggregation_correct (own : List String)
    (results : List (String × List RefDomainRow)) (limit : Nat) :
    ∀ e ∈ getMultiCompetitorBacklinkGaps own results limit,
      e.domain ∉ own ∧
      e.competitors = (backlinkContribs results e.domain).map
          (fun cg => (cg.1, cg.2.backlinks)) ∧
      e.competitorCount = e.competitors.length ∧
      e.domainInlinkRank ∈
        (backlinkContribs results e.domain).map (·.2.domain_inlink_rank) ∧
      (∀ r ∈ (backlinkContribs results e.domain).map (·.2.domain_inlink_rank),
          r ≤ e.domainInlinkRank) ∧
      e.totalBacklinksToCompetitors =
        ((backlinkContribs results e.domain).map (·.2.backlinks)).sum := by
  intro e he
  have he' : e ∈ backlinkAggregateAll own results :=
    (List.take_sublist _ _).subset he
  obtain ⟨item, hacc, rfl⟩ := exists_acc_of_mem_backlinkAggregateAll he'
  cases hcon : (backlinkPairs results).filter
      (fun cg => cg.2.domain = item.domain ∧ cg.2.domain ∉ own) with
  | nil => rw [hcon] at hacc; simp [backlinkAccOf] at hacc
  | cons a l =>
      rw [hcon] at hacc
      injection hacc with hrec
      have hmem_a : a ∈ (backlinkPairs results).filter
          (fun cg => cg.2.domain = item.domain ∧ cg.2.domain ∉ own) := by
        rw [hcon]; exact List.mem_cons_self _ _
      have hdom : item.domain ∉ own := by
        have hpair : a.2.domain = item.domain ∧ a.2.domain ∉ own := by
          simpa using List.of_mem_filter hmem_a
        exact hpair.1 ▸ hpair.2
      have hfil : (backlinkPairs results).filter
            (fun cg => cg.2.domain = item.domain ∧ cg.2.domain ∉ own) =
          backlinkContribs results item.domain := by
        unfold backlinkContribs
        apply List.filter_congr
        intro cg _
        by_cases hd : cg.2.domain = item.domain
        · simp [hd, hdom]
        · simp [hd]
      have hconc : backlinkContribs results item.domain = a :: l := by
        rw [← hfil, hcon]
      have hrank : item.domainInlinkRank =
          maxList ((a :: l).map (·.2.domain_inlink_rank)) := by
        rw [← hrec]
      have hcomp : item.competitors =
          (a :: l).map (fun cg => (cg.1, cg.2.backlinks)) := by
        rw [← hrec]
      have htot : item.totalBacklinks = ((a :: l).map (·.2.backlinks)).sum := by
        rw [← hrec]
      have hkey : (finalizeBacklink item).domain = item.domain := rfl
      refine ⟨hdom, ?_, rfl, ?_, ?_, ?_⟩
      · show item.competitors = _
        rw [hkey, hconc, hcomp]
      · show item.domainInlinkRank ∈ _
        rw [hkey, hconc, hrank]
        exact maxList_mem (by simp)
      · intro r hr
        rw [hkey, hconc] at hr
        show r ≤ item.domainInlinkRank
        rw [hrank]
        exact le_maxList hr
      · show item.totalBacklinks = _
        rw [hkey, hconc, htot]

/-- Witness for C4 on the shared/fresh referring-domain example. -/
theorem backlinkGaps_aggregation_correct_witness :
    (getMultiCompetitorBacklinkGaps backlinkExampleOwn backlinkExampleResults
        10).map (·.domain) = ["fresh.com"] ∧
    backlinkExampleEntry ∈
      getMultiCompetitorBacklinkGaps backlinkExampleOwn backlinkExampleResults
        10 ∧
    backlinkExampleEntry.domain ∉ backlinkExampleOwn :=
  ⟨by decide, by decide,
    (backlinkGaps_aggregation_correct backlinkExampleOwn
      backlinkExampleResults 10 backlinkExampleEntry (by decide)).1⟩

-- ============================================================
-- C6 : rate limiter token bounds
-- ============================================================

/-- C6: the refill performed on each acquisition attempt is capped at
capacity regardless of elapsed time; an `acquire` never completes with a
negative token count and never exceeds capacity; a token is consumed
(tokens drop by exactly one, no wait) only when at least one token is
available after the refill, and otherwise the caller waits and the count is
set to exactly 0; a freshly constructed limiter starts with a full bucket,
so the count is within `[0, capacity]` from the start. -/
theorem rateLimiter_tokens_in_range (s : RateLimiter) (now now' : ℚ)
    (hcap : 0 ≤ s.maxTokens) :
    (s.refill now).tokens ≤ s.maxTokens ∧
    0 ≤ (s.acquire now now').1.tokens ∧
    (s.acquire now now').1.tokens ≤ s.maxTokens ∧
    (1 ≤ (s.refill now).tokens →
      (s.acquire now now').2 = false ∧
      (s.acquire now now').1.tokens = (s.refill now).tokens - 1) ∧
    (¬ 1 ≤ (s.refill now).tokens →
      (s.acquire now now').2 = true ∧
      (s.acquire now now').1.tokens = 0) ∧
    (∀ rps t0 : ℚ, 0 ≤ rps →
      0 ≤ (RateLimiter.init rps t0).tokens ∧
      (RateLimiter.init rps t0).tokens = (RateLimiter.init rps t0).maxTokens) := by
  have hmin : (s.refill now).tokens ≤ s.maxTokens := by
    unfold RateLimiter.refill
    exact min_le_left _ _
  by_cases h1 : 1 ≤ (s.refill now).tokens
  · have hacq : s.acquire now now' =
        ({ s.refill now with tokens := (s.refill now).tokens - 1 }, false) := by
      unfold RateLimiter.acquire
      simp only [if_pos h1]
    refine ⟨hmin, ?_, ?_, fun _ => ⟨by rw [hacq], by rw [hacq]⟩,
      fun h => absurd h1 h, fun rps t0 h => ⟨h, rfl⟩⟩
    · rw [hacq]
      simp only
      linarith
    · rw [hacq]
      simp only
      linarith
  · have hacq : s.acquire now now' =
        ({ s.refill now with tokens := 0, lastRefill := now' }, true) := by
      unfold RateLimiter.acquire
      simp only [if_neg h1]
    refine ⟨hmin, ?_, ?_, fun h => absurd h h1,
      fun _ => ⟨by rw [hacq], by rw [hacq]⟩, fun rps t0 h => ⟨h, rfl⟩⟩
    · rw [hacq]
    · rw [hacq]
      exact hcap

/-- Witness for C6 at a freshly constructed limiter with the default
capacity of 5. -/
theorem rateLimiter_tokens_in_range_witness :
    0 ≤ ((RateLimiter.init 5 0).acquire 0 200).1.tokens ∧
    ((RateLimiter.init 5 0).acquire 0 200).1.tokens ≤
      (RateLimiter.init 5 0).maxTokens :=
  ⟨(rateLimiter_tokens_in_range (RateLimiter.init 5 0) 0 200 (by decide)).2.1,
   (rateLimiter_tokens_in_range (RateLimiter.init 5 0) 0 200
      (by decide)).2.2.1⟩

-- ============================================================
-- C7 : credit lookup
-- ============================================================

theorem mapGet_exists_of_mem_keys {α : Type} {m : List (String × α)}
    {k : String} (h : k ∈ m.map (·.1)) : ∃ v, mapGet m k = some v := by
  induction m with
  | nil => simp at h
  | cons hd tl ih =>
      obtain ⟨a, b⟩ := hd
      by_cases hak : a = k
      · exact ⟨b, by simp [mapGet, hak]⟩
      · have h' : k ∈ tl.map (·.1) := by
          rcases List.mem_cons.mp h with h | h
          · exact absurd h.symm hak
          · exact h
        obtain ⟨v, hv⟩ := ih h'
        exact ⟨v, by simp [mapGet, hak, hv]⟩

/-- C7: `calculateCredits` selects a longest cost-table pattern occurring
as a substring of the endpoint, charging `perRequest + perRecord *
recordCount` for it; unmatched endpoints cost 0; the `/domain/overview/db`
entry (perRequest 100, perRecord 0) costs 100 for any record count and the
`/backlinks/summary` entry (perRequest 0, perRecord 100) costs 300 for
3 records. -/
theorem calculateCredits_longest_match (endpoint : String) (n : Int) :
    ((∀ pat ∈ CREDIT_COSTS.map (·.1), ¬ jsIncludes endpoint pat = true) →
      calculateCredits endpoint n = 0) ∧
    (∀ pat ∈ CREDIT_COSTS.map (·.1), jsIncludes endpoint pat = true →
      ∃ m cost, creditMatch endpoint = some m ∧
        m ∈ CREDIT_COSTS.map (·.1) ∧
        jsIncludes endpoint m = true ∧
        (∀ q ∈ CREDIT_COSTS.map (·.1), jsIncludes endpoint q = true →
          q.length ≤ m.length) ∧
        creditCostOf m = some cost ∧
        calculateCredits endpoint n = cost.1 + cost.2 * n) ∧
    calculateCredits "/domain/overview/db" n = 100 ∧
    calculateCredits "/backlinks/summary" 3 = 300 := by
  refine ⟨?_, ?_, ?_, by decide⟩
  · intro h
    have hfil : creditMatches endpoint = [] := by
      unfold creditMatches
      exact List.filter_eq_nil_iff.mpr h
    unfold calculateCredits creditMatch
    rw [hfil]
    rfl
  · intro pat hpat hinc
    have hmem : pat ∈ creditMatches endpoint :=
      List.mem_filter.mpr ⟨hpat, hinc⟩
    have hperm := List.perm_insertionSort lenDescRel (creditMatches endpoint)
    cases hs : (creditMatches endpoint).insertionSort lenDescRel with
    | nil =>
        exact absurd (hperm.symm.subset hmem) (by rw [hs]; simp)
    | cons m rest =>
        have hmatch : creditMatch endpoint = some m := by
          unfold creditMatch
          rw [hs]
          rfl
        have hm_mem : m ∈ creditMatches endpoint :=
          hperm.subset (by rw [hs]; exact List.mem_cons_self _ _)
        have hm_keys : m ∈ CREDIT_COSTS.map (·.1) :=
          (List.mem_filter.mp hm_mem).1
        have hm_inc : jsIncludes endpoint m = true :=
          (List.mem_filter.mp hm_mem).2
        obtain ⟨cost, hcost⟩ := mapGet_exists_of_mem_keys hm_keys
        have hsorted := List.sorted_insertionSort lenDescRel
          (creditMatches endpoint)
        rw [hs] at hsorted
        have hmax : ∀ q ∈ CREDIT_COSTS.map (·.1),
            jsIncludes endpoint q = true → q.length ≤ m.length := by
          intro q hq hqinc
          have hq_mem : q ∈ creditMatches endpoint :=
            List.mem_filter.mpr ⟨hq, hqinc⟩
          have hq_sorted : q ∈ m :: rest := by
            rw [← hs]
            exact hperm.symm.subset hq_mem
          rcases List.mem_cons.mp hq_sorted with rfl | hq_rest
          · exact le_refl _
          · exact (List.sorted_cons.mp hsorted).1 q hq_rest
        refine ⟨m, cost, hmatch, hm_keys, hm_inc, hmax, hcost, ?_⟩
        unfold calculateCredits
        rw [hmatch]
        show (match creditCostOf m with
          | none => 0
          | some costs => costs.1 + costs.2 * n) = cost.1 + cost.2 * n
        rw [show creditCostOf m = some cost from hcost]
  · have hval : calculateCredits "/domain/overview/db" n = 100 + 0 * n := rfl
    rw [hval]
    ring

/-- Witness for C7: the `/backlinks/summary` endpoint matches a pattern, so
the longest-match branch applies to it. -/
theorem calculateCredits_longest_match_witness :
    jsIncludes "/backlinks/summary" "/backlinks/summary" = true ∧
    ∃ m cost, creditMatch "/backlinks/summary" = some m ∧
      m ∈ CREDIT_COSTS.map (·.1) ∧
      jsIncludes "/backlinks/summary" m = true ∧
      (∀ q ∈ CREDIT_COSTS.map (·.1),
        jsIncludes "/backlinks/summary" q = true → q.length ≤ m.length) ∧
      creditCostOf m = some cost ∧
      calculateCredits "/backlinks/summary" 3 = cost.1 + cost.2 * 3 :=
  ⟨by decide,
    (calculateCredits_longest_match "/backlinks/summary" 3).2.1
      "/backlinks/summary" (by decide) (by decide)⟩

-- ============================================================
-- C8 : record counting heuristic
-- ============================================================


theorem countRecords_obj_eq (fields : List (String × JsonValue)) :
    countRecords (.obj fields) =
      match wrapperKeys.findSome? (wrapperProbe fields) with
      | some n => n
      | none => 1 := rfl

/-- C8: `countRecords` returns the length of a list payload; on an object
payload it returns the length of the first recognized collection field
holding a list, and 1 when no recognized collection field holds a list; on
any other payload it returns 1. The spec's examples are covered: an object
with `keywords` bound to a 3-element list counts 3, the empty object and
non-object payloads count 1. -/
theorem countRecords_heuristic :
    (∀ elems : List JsonValue, countRecords (.arr elems) = elems.length) ∧
    (∀ fields : List (String × JsonValue),
      (∀ k ∈ wrapperKeys, ∀ elems : List JsonValue,
        jsGetField fields k ≠ some (.arr elems)) →
      countRecords (.obj fields) = 1) ∧
    (∀ fields : List (String × JsonValue), ∀ k ∈ wrapperKeys,
      ∀ elems : List JsonValue, jsGetField fields k = some (.arr elems) →
      ∃ k' ∈ wrapperKeys, ∃ elems' : List JsonValue,
        jsGetField fields k' = some (.arr elems') ∧
        countRecords (.obj fields) = elems'.length) ∧
    countRecords .other = 1 ∧
    countRecords (.obj [("keywords", .arr [.other, .other, .other])]) = 3 ∧
    countRecords (.obj []) = 1 := by
  refine ⟨fun elems => rfl, ?_, ?_, rfl, rfl, rfl⟩
  · intro fields h
    have hnone : wrapperKeys.findSome? (wrapperProbe fields) = none := by
      rw [List.findSome?_eq_none_iff]
      intro k hk
      unfold wrapperProbe
      cases hg : jsGetField fields k with
      | none => rfl
      | some v =>
          cases v with
          | arr elems => exact absurd hg (h k hk elems)
          | obj fs => rfl
          | other => rfl
    rw [countRecords_obj_eq, hnone]
  · intro fields k hk elems hg
    have hne : wrapperKeys.findSome? (wrapperProbe fields) ≠ none := by
      intro hnone0
      have hall := List.findSome?_eq_none_iff.mp hnone0
      have := hall k hk
      unfold wrapperProbe at this
      rw [hg] at this
      exact Option.noConfusion this
    cases hfind : wrapperKeys.findSome? (wrapperProbe fields) with
    | none => exact absurd hfind hne
    | some n =>
        obtain ⟨k', hk', hpk'⟩ := List.exists_of_findSome?_eq_some hfind
        unfold wrapperProbe at hpk'
        cases hg' : jsGetField fields k' with
        | none => rw [hg'] at hpk'; exact Option.noConfusion hpk'
        | some v =>
            cases v with
            | arr elems' =>
                rw [hg'] at hpk'
                have hn : elems'.length = n := by
                  simpa using hpk'
                exact ⟨k', hk', elems', hg', by
                  rw [countRecords_obj_eq, hfind, hn]⟩
            | obj fs => rw [hg'] at hpk'; exact Option.noConfusion hpk'
            | other => rw [hg'] at hpk'; exact Option.noConfusion hpk'

/-- Witness for C8 on the spec's `keywords` example object. -/
theorem countRecords_heuristic_witness :
    "keywords" ∈ wrapperKeys ∧
    ∃ k' ∈ wrapperKeys, ∃ elems' : List JsonValue,
      jsGetField [("keywords", JsonValue.arr [.other, .other, .other])] k' =
        some (.arr elems') ∧
      countRecords (.obj [("keywords",
        JsonValue.arr [.other, .other, .other])]) = elems'.length :=
  ⟨by decide,
    countRecords_heuristic.2.2.1
      [("keywords", JsonValue.arr [.other, .other, .other])]
      "keywords" (by decide) [.other, .other, .other] rfl⟩

-- ============================================================
-- C9 : position-distribution source selection
-- ============================================================

/-- C9 (amended): the compiler prefers the domain overview's top-N figures
whenever the overview is available, and only in its absence is each bucket
derived by counting fetched keyword records at or under the thresholds 3,
10, 20, 50 and 100; the overview's figures, however, are not
provider-supplied counts but are derived client-side by
`getDomainOverview`: top10/20/50/100 are cumulative sums of the provider's
rank-band counts and top3 is the estimate `Math.round(top1_5 * 0.6)`. -/
theorem positionDistribution_source_selection
    (o : DomainOverview) (allKeywords : List DomainKeyword) :
    compilePositionDistribution (some o) allKeywords =
      { top3 := o.keywords_top3, top10 := o.keywords_top10,
        top20 := o.keywords_top20, top50 := o.keywords_top50,
        top100 := o.keywords_top100 } ∧
    (compilePositionDistribution none allKeywords).top3 =
      (allKeywords.countP (fun k => k.position ≤ 3) : Int) ∧
    (compilePositionDistribution none allKeywords).top10 =
      (allKeywords.countP (fun k => k.position ≤ 10) : Int) ∧
    (compilePositionDistribution none allKeywords).top20 =
      (allKeywords.countP (fun k => k.position ≤ 20) : Int) ∧
    (compilePositionDistribution none allKeywords).top50 =
      (allKeywords.countP (fun k => k.position ≤ 50) : Int) ∧
    (compilePositionDistribution none allKeywords).top100 =
      (allKeywords.countP (fun k => k.position ≤ 100) : Int) ∧
    (∀ organic : OrganicOverviewRaw, ∀ kws : List DomainKeyword,
      compilePositionDistribution (some (normalizeDomainOverview organic))
          kws =
        { top3 := jsRound (3 * organic.top1_5) 5
          top10 := organic.top1_5 + organic.top6_10
          top20 := organic.top1_5 + organic.top6_10 + organic.top11_20
          top50 := organic.top1_5 + organic.top6_10 + organic.top11_20 +
            organic.top21_50
          top100 := organic.top1_5 + organic.top6_10 + organic.top11_20 +
            organic.top21_50 + organic.top51_100 }) := by
  refine ⟨rfl, ?_, ?_, ?_, ?_, ?_, fun organic kws => rfl⟩ <;>
    simp [compilePositionDistribution, List.countP_eq_length_filter]

/-- Counterexample to C9 as stated: for an overview built from a provider
payload reporting ten keywords ranked 1-5 (and no top-3 count, which the
provider never supplies), the compiled top-3 bucket is the client-side
estimate 6 — a number equal to none of the figures the provider supplied,
so the distribution is not taken from provider-supplied top-N counts. -/
theorem positionDistribution_estimate_counterexample :
    (compilePositionDistribution
        (some (normalizeDomainOverview organicExampleRaw)) []).top3 = 6 ∧
    (6 : Int) ∉
      [organicExampleRaw.traffic_sum, organicExampleRaw.keywords_count,
       organicExampleRaw.top1_5, organicExampleRaw.top6_10,
       organicExampleRaw.top11_20, organicExampleRaw.top21_50,
       organicExampleRaw.top51_100] := by
  decide

-- ============================================================
-- C2 : backlinks-summary degradation
-- ============================================================

/-- C2: when the backlinks-summary fetch rejects, report generation still
completes (the run status is `completed`, never `failed`), the compiled
report's backlinks summary is the zero/empty-filled default in every field,
and the keywords section is populated from the keyword fetches alone. -/
theorem backlinksSummary_degradation (f : FetchOutcomes)
    (hfail : f.backlinksSummary = Except.error ()) :
    runStatus (generateReportSlice f) = ReportStatus.completed ∧
    runStatus (generateReportSlice f) ≠ ReportStatus.failed ∧
    ∀ slice, generateReportSlice f = Except.ok slice →
      slice.backlinks.summary.backlinks = 0 ∧
      slice.backlinks.summary.backlinks_num = 0 ∧
      slice.backlinks.summary.refdomains = 0 ∧
      slice.backlinks.summary.refdomains_num = 0 ∧
      slice.backlinks.summary.subnets = 0 ∧
      slice.backlinks.summary.ips = 0 ∧
      slice.backlinks.summary.dofollow_backlinks = 0 ∧
      slice.backlinks.summary.nofollow_backlinks = 0 ∧
      slice.backlinks.summary.text_backlinks = 0 ∧
      slice.backlinks.summary.image_backlinks = 0 ∧
      slice.backlinks.summary.redirect_backlinks = 0 ∧
      slice.backlinks.summary.canonical_backlinks = 0 ∧
      slice.backlinks.summary.gov_backlinks = 0 ∧
      slice.backlinks.summary.edu_backlinks = 0 ∧
      slice.backlinks.summary.tlds = [] ∧
      slice.backlinks.summary.countries = [] ∧
      slice.backlinks.summary.top_anchors_by_backlinks = [] ∧
      slice.backlinks.summary.top_anchors_by_refdomains = [] ∧
      slice.keywords.topKeywords = (catchDefault f.allKeywords ([], 0)).1 ∧
      slice.keywords.total = totalKeywordsOf (catchNull f.domainOverview)
        (catchDefault f.allKeywords ([], 0)).1 ∧
      slice.keywords.nearPageOne = catchDefault f.nearPageOne [] ∧
      slice.keywords.positionDistribution =
        compilePositionDistribution (catchNull f.domainOverview)
          (catchDefault f.allKeywords ([], 0)).1 := by
  have hs : generateReportSlice f =
      Except.ok (compileReportSlice none (catchNull f.domainOverview)
        (totalKeywordsOf (catchNull f.domainOverview)
          (catchDefault f.allKeywords ([], 0)).1)
        (catchDefault f.allKeywords ([], 0)).1
        (catchDefault f.nearPageOne [])) := by
    unfold generateReportSlice
    rw [hfail]
    rfl
  refine ⟨by rw [hs]; rfl, by rw [hs]; simp [runStatus], ?_⟩
  intro slice hok
  rw [hs] at hok
  injection hok with hok
  subst hok
  exact ⟨rfl, rfl, rfl, rfl, rfl, rfl, rfl, rfl, rfl, rfl, rfl, rfl, rfl,
    rfl, rfl, rfl, rfl, rfl, rfl, rfl, rfl, rfl⟩

/-- Witness for C2: only the backlinks-summary fetch of the example
outcomes fails, and the run still ends `completed`. -/
theorem backlinksSummary_degradation_witness :
    runStatus (generateReportSlice fetchOutcomesExample) =
      ReportStatus.completed ∧
    runStatus (generateReportSlice fetchOutcomesExample) ≠
      ReportStatus.failed :=
  ⟨(backlinksSummary_degradation fetchOutcomesExample rfl).1,
   (backlinksSummary_degradation fetchOutcomesExample rfl).2.1⟩

-- ============================================================
-- Lemmas: prompt deduplication
-- ============================================================

theorem mergePrompt_eq (e p : AIPrompt) :
    mergePrompt e p =
      if upgradeCond e.type p.type then
        { e with type := PromptType.brand_link }
      else e := by
  cases he : e.type <;> cases hp : p.type <;>
    simp [mergePrompt, upgradeCond, he, hp]

theorem mergePrompt_prompt (e p : AIPrompt) :
    (mergePrompt e p).prompt = e.prompt := by
  rw [mergePrompt_eq]
  split <;> rfl

theorem mergePrompt_engine (e p : AIPrompt) :
    (mergePrompt e p).engine = e.engine := by
  rw [mergePrompt_eq]
  split <;> rfl

theorem mergePrompt_position (e p : AIPrompt) :
    (mergePrompt e p).position = e.position := by
  rw [mergePrompt_eq]
  split <;> rfl

theorem mergePrompt_volume (e p : AIPrompt) :
    (mergePrompt e p).volume = e.volume := by
  rw [mergePrompt_eq]
  split <;> rfl

theorem mergePrompt_snippet (e p : AIPrompt) :
    (mergePrompt e p).answer_snippet = e.answer_snippet := by
  rw [mergePrompt_eq]
  split <;> rfl

theorem mergePrompt_full (e p : AIPrompt) :
    (mergePrompt e p).answer_full = e.answer_full := by
  rw [mergePrompt_eq]
  split <;> rfl

theorem mergePrompt_sources (e p : AIPrompt) :
    (mergePrompt e p).sources = e.sources := by
  rw [mergePrompt_eq]
  split <;> rfl

theorem mergePrompt_type_cases (e p : AIPrompt) :
    (mergePrompt e p).type = e.type ∨
      (mergePrompt e p).type = PromptType.brand_link := by
  rw [mergePrompt_eq]
  split
  · exact Or.inr rfl
  · exact Or.inl rfl

theorem mergePrompt_only_types_matter (e p q : AIPrompt)
    (h : p.type = q.type) : mergePrompt e p = mergePrompt e q := by
  rw [mergePrompt_eq, mergePrompt_eq, h]

theorem mem_lower_insertPrompt {l : List AIPrompt} {p : AIPrompt}
    {x : List Char}
    (h : x ∈ (insertPrompt l p).map (fun q => lowerStr q.prompt)) :
    x ∈ l.map (fun q => lowerStr q.prompt) ∨ x = lowerStr p.prompt := by
  induction l with
  | nil =>
      simp only [insertPrompt, List.map_cons, List.map_nil] at h
      rcases List.mem_cons.mp h with h | h
      · exact Or.inr h
      · simp at h
  | cons e rest ih =>
      by_cases hm : lowerStr e.prompt = lowerStr p.prompt
      · simp only [insertPrompt, if_pos hm, List.map_cons] at h
        rcases List.mem_cons.mp h with h | h
        · rw [mergePrompt_prompt] at h
          exact Or.inl (by simp [h])
        · exact Or.inl (by simp [h])
      · simp only [insertPrompt, if_neg hm, List.map_cons] at h
        rcases List.mem_cons.mp h with h | h
        · exact Or.inl (by simp [h])
        · rcases ih h with h' | h'
          · exact Or.inl (List.mem_cons_of_mem _ h')
          · exact Or.inr h'

theorem nodup_lower_insertPrompt {l : List AIPrompt} {p : AIPrompt}
    (h : (l.map (fun q => lowerStr q.prompt)).Nodup) :
    ((insertPrompt l p).map (fun q => lowerStr q.prompt)).Nodup := by
  induction l with
  | nil => simp [insertPrompt]
  | cons e rest ih =>
      simp only [List.map_cons, List.nodup_cons] at h
      by_cases hm : lowerStr e.prompt = lowerStr p.prompt
      · simp only [insertPrompt, if_pos hm, List.map_cons, List.nodup_cons]
        rw [mergePrompt_prompt]
        exact ⟨h.1, h.2⟩
      · simp only [insertPrompt, if_neg hm, List.map_cons, List.nodup_cons]
        refine ⟨?_, ih h.2⟩
        intro hmem
        rcases mem_lower_insertPrompt hmem with h' | h'
        · exact h.1 h'
        · exact hm h'

theorem engine_insertPrompt {l : List AIPrompt} {p : AIPrompt} {eng : String}
    (hl : ∀ q ∈ l, q.engine = eng) (hp : p.engine = eng) :
    ∀ q ∈ insertPrompt l p, q.engine = eng := by
  induction l with
  | nil =>
      intro q hq
      simp only [insertPrompt] at hq
      rcases List.mem_singleton.mp hq with rfl
      exact hp
  | cons e rest ih =>
      intro q hq
      by_cases hm : lowerStr e.prompt = lowerStr p.prompt
      · simp only [insertPrompt, if_pos hm] at hq
        rcases List.mem_cons.mp hq with rfl | hq'
        · rw [mergePrompt_engine]
          exact hl e (List.mem_cons_self _ _)
        · exact hl q (List.mem_cons_of_mem _ hq')
      · simp only [insertPrompt, if_neg hm] at hq
        rcases List.mem_cons.mp hq with rfl | hq'
        · exact hl q (List.mem_cons_self _ _)
        · exact ih (fun r hr => hl r (List.mem_cons_of_mem _ hr)) q hq'

/-- One step of the flattened prompt fold. -/
def promptFoldStep (m : String → List AIPrompt) (p : AIPrompt) :
    String → List AIPrompt :=
  fun e => if e = p.engine then insertPrompt (m p.engine) p else m e

theorem foldPrompts_eq_flat (promptsResults : List (List AIPrompt)) :
    foldPrompts promptsResults =
      promptsResults.flatten.foldl promptFoldStep (fun _ => []) := by
  unfold foldPrompts promptFoldStep
  generalize (fun _ => ([] : List AIPrompt)) = m0
  induction promptsResults generalizing m0 with
  | nil => rfl
  | cons hd tl ih =>
      simp only [List.foldl_cons, List.flatten_cons, List.foldl_append]
      exact ih _

theorem foldPrompts_invariant (ps : List AIPrompt)
    (m0 : String → List AIPrompt)
    (h0 : ∀ eng, ((m0 eng).map (fun q => lowerStr q.prompt)).Nodup ∧
      ∀ q ∈ m0 eng, q.engine = eng) :
    ∀ eng,
      (((ps.foldl promptFoldStep m0) eng).map
        (fun q => lowerStr q.prompt)).Nodup ∧
      ∀ q ∈ (ps.foldl promptFoldStep m0) eng, q.engine = eng := by
  induction ps generalizing m0 with
  | nil => exact h0
  | cons p rest ih =>
      refine ih _ ?_
      intro eng
      unfold promptFoldStep
      by_cases he : eng = p.engine
      · subst he
        simp only [if_pos rfl]
        exact ⟨nodup_lower_insertPrompt (h0 p.engine).1,
          engine_insertPrompt (h0 p.engine).2 rfl⟩
      · simp only [if_neg he]
        exact h0 eng

-- ============================================================
-- C5 : prompt deduplication
-- ============================================================

/-- C5: after folding the per-engine brand-then-target prompt lists, each
engine's list holds at most one entry per case-insensitive prompt text, all
its entries belong to that engine, the duplicate-merge rule upgrades the
existing entry's classification to `brand_link` exactly when one side is
`brand` or `brand_link` and the other is `link` or `brand_link` (leaving it
unchanged otherwise) — so a brand-typed prompt followed by a link-typed
prompt differing only in letter case folds to a single `brand_link` entry —
and each engine's final list is sorted by volume descending and capped at
the fixed per-engine count. -/
theorem promptDedup_correct (promptsResults : List (List AIPrompt))
    (eng : String) :
    ((enginePrompts promptsResults eng).map
      (fun q => lowerStr q.prompt)).Nodup ∧
    (∀ q ∈ enginePrompts promptsResults eng, q.engine = eng) ∧
    (∀ e p : AIPrompt, upgradeCond e.type p.type →
      mergePrompt e p = { e with type := PromptType.brand_link }) ∧
    (∀ e p : AIPrompt, ¬ upgradeCond e.type p.type → mergePrompt e p = e) ∧
    (∀ p1 p2 : AIPrompt, p1.engine = eng → p2.engine = eng →
      p1.type = PromptType.brand → p2.type = PromptType.link →
      lowerStr p1.prompt = lowerStr p2.prompt →
      foldPrompts [[p1], [p2]] eng =
        [{ p1 with type := PromptType.brand_link }]) ∧
    List.Pairwise volRel (enginePrompts promptsResults eng) ∧
    (enginePrompts promptsResults eng).length ≤ promptsPerEngine := by
  have hinv := by
    refine foldPrompts_invariant promptsResults.flatten (fun _ => []) ?_
    intro e
    exact ⟨List.nodup_nil, by simp⟩
  rw [← foldPrompts_eq_flat] at hinv
  have hperm := List.perm_insertionSort volRel (foldPrompts promptsResults eng)
  refine ⟨?_, ?_, ?_, ?_, ?_, ?_, List.length_take_le _ _⟩
  · have hfull : (((foldPrompts promptsResults eng).insertionSort
        volRel).map (fun q => lowerStr q.prompt)).Nodup :=
      ((hperm.map _).nodup_iff).mpr (hinv eng).1
    exact hfull.sublist ((List.take_sublist _ _).map _)
  · intro q hq
    have hq' : q ∈ foldPrompts promptsResults eng :=
      hperm.subset ((List.take_sublist _ _).subset hq)
    exact (hinv eng).2 q hq'
  · intro e p h
    rw [mergePrompt_eq, if_pos h]
  · intro e p h
    rw [mergePrompt_eq, if_neg h]
  · intro p1 p2 h1 h2 hb hl hlow
    have hcond : upgradeCond p1.type p2.type := by
      rw [hb, hl]
      exact Or.inl ⟨Or.inl rfl, Or.inl rfl⟩
    have hmerge : mergePrompt p1 p2 = { p1 with type := PromptType.brand_link } := by
      rw [mergePrompt_eq, if_pos hcond]
    rw [foldPrompts_eq_flat]
    show promptFoldStep (promptFoldStep (fun _ => []) p1) p2 eng = _
    unfold promptFoldStep
    simp [h1, h2, insertPrompt, hlow, hmerge]
  · exact (List.sorted_insertionSort volRel _).sublist (List.take_sublist _ _)

/-- Witness for C5 on the spec's case-difference example: brand-scoped
"best shoes" then target-scoped "Best Shoes" on engine `x` fold to a single
`brand_link` entry. -/
theorem promptDedup_correct_witness :
    foldPrompts [[promptBrandExample], [promptLinkExample]] "x" =
      [{ promptBrandExample with type := PromptType.brand_link }] :=
  (promptDedup_correct [[promptBrandExample], [promptLinkExample]]
      "x").2.2.2.2.1 promptBrandExample promptLinkExample rfl rfl rfl rfl
    (by decide)

-- ============================================================
-- C10 : merge-branch frame property
-- ============================================================

/-- C10: when the incoming prompt duplicates the entry at the first
matching index, the fold rewrites exactly that index with the merged entry;
the merged entry keeps every field of the first-seen entry — prompt text
(including case), engine, position, volume, answer snippet, full answer and
sources — except possibly `type`, which is either unchanged or upgraded to
`brand_link`; and of the incoming duplicate only its `type` can influence
the result. -/
theorem promptMerge_frame (l : List AIPrompt) (p : AIPrompt) (i : Nat)
    (hi : i < l.length)
    (hbefore : ∀ j (hj : j < l.length), j < i →
      lowerStr (l.get ⟨j, hj⟩).prompt ≠ lowerStr p.prompt)
    (hmatch : lowerStr (l.get ⟨i, hi⟩).prompt = lowerStr p.prompt) :
    insertPrompt l p = l.set i (mergePrompt (l.get ⟨i, hi⟩) p) ∧
    (mergePrompt (l.get ⟨i, hi⟩) p).prompt = (l.get ⟨i, hi⟩).prompt ∧
    (mergePrompt (l.get ⟨i, hi⟩) p).engine = (l.get ⟨i, hi⟩).engine ∧
    (mergePrompt (l.get ⟨i, hi⟩) p).position = (l.get ⟨i, hi⟩).position ∧
    (mergePrompt (l.get ⟨i, hi⟩) p).volume = (l.get ⟨i, hi⟩).volume ∧
    (mergePrompt (l.get ⟨i, hi⟩) p).answer_snippet =
      (l.get ⟨i, hi⟩).answer_snippet ∧
    (mergePrompt (l.get ⟨i, hi⟩) p).answer_full =
      (l.get ⟨i, hi⟩).answer_full ∧
    (mergePrompt (l.get ⟨i, hi⟩) p).sources = (l.get ⟨i, hi⟩).sources ∧
    ((mergePrompt (l.get ⟨i, hi⟩) p).type = (l.get ⟨i, hi⟩).type ∨
      (mergePrompt (l.get ⟨i, hi⟩) p).type = PromptType.brand_link) ∧
    (∀ q : AIPrompt, q.type = p.type →
      mergePrompt (l.get ⟨i, hi⟩) p = mergePrompt (l.get ⟨i, hi⟩) q) := by
  refine ⟨?_, mergePrompt_prompt _ _, mergePrompt_engine _ _,
    mergePrompt_position _ _, mergePrompt_volume _ _,
    mergePrompt_snippet _ _, mergePrompt_full _ _, mergePrompt_sources _ _,
    mergePrompt_type_cases _ _,
    fun q hq => mergePrompt_only_types_matter _ _ _ hq.symm⟩
  induction l generalizing i with
  | nil => simp at hi
  | cons e rest ih =>
      cases i with
      | zero =>
          have hm : lowerStr e.prompt = lowerStr p.prompt := hmatch
          simp only [insertPrompt, if_pos hm]
          rfl
      | succ i' =>
          have hne : lowerStr e.prompt ≠ lowerStr p.prompt :=
            hbefore 0 (by simp) (Nat.succ_pos i')
          simp only [insertPrompt, if_neg hne]
          have hi' : i' < rest.length := Nat.lt_of_succ_lt_succ hi
          have hrec := ih i' hi'
            (fun j hj hlt => hbefore (j + 1) (by simpa using hj)
              (Nat.succ_lt_succ hlt))
            hmatch
          rw [hrec]
          rfl

/-- Witness for C10 on the dedup example pair at index 0. -/
theorem promptMerge_frame_witness :
    insertPrompt [promptBrandExample] promptLinkExample =
      [promptBrandExample].set 0
        (mergePrompt ([promptBrandExample].get ⟨0, by decide⟩)
          promptLinkExample) ∧
    (mergePrompt ([promptBrandExample].get ⟨0, by decide⟩)
        promptLinkExample).prompt =
      ([promptBrandExample].get ⟨0, by decide⟩).prompt :=
  ⟨(promptMerge_frame [promptBrandExample] promptLinkExample 0 (by decide)
      (fun j hj hlt => absurd hlt (by omega)) (by decide)).1,
   (promptMerge_frame [promptBrandExample] promptLinkExample 0 (by decide)
      (fun j hj hlt => absurd hlt (by omega)) (by decide)).2.1⟩
